import Mathlib

/-!
# YOUNG 32400 serial interface driver

A shallow embedding of `src/YOUNG_32400.cpp` / `src/YOUNG_32400.h`.

* Characters are natural numbers (their byte value); a C string is a list of
  bytes that ends at its first NUL byte.
* The two external collaborators of `poll()`, the `Stream` and the `millis()`
  clock, are scripts: each call consumes the next answer of its script.  A run
  that needs an answer the script does not hold stops with `Stop.starved`.
* The 128 byte response buffer is bounds checked: a write outside it stops the
  run with `Stop.outOfBounds`.
* `float` results are exact rationals.
-/

namespace YOUNG_32400

/-! ## Characters and C library functions -/

/-- Carriage return. -/
def CR : Nat := 13

/-- Line feed. -/
def LF : Nat := 10

/-- Comma, the only delimiter handed to `strtok`. -/
def COMMA : Nat := 44

/-- Conversion `char c = _serial->read()`: the low eight bits of the byte read. -/
def toChar (b : Nat) : Nat := b % 256

/-- The bytes of an ASCII string literal. -/
def bytes (s : String) : List Nat := s.toList.map Char.toNat

/-- C `isdigit`. -/
def isdigit (c : Nat) : Bool := decide (48 ≤ c) && decide (c ≤ 57)

/-- C `isspace` in the C locale: space, and `\t \n \v \f \r`. -/
def isspace (c : Nat) : Bool := c == 32 || (decide (9 ≤ c) && decide (c ≤ 13))

/-- The C string starting at a pointer: the bytes before the first NUL. -/
def cstr (mem : List Nat) : List Nat := mem.takeWhile (fun c => c != 0)

/-- C `strstr(hay, needle)`: the suffix of `hay` that starts at the first
occurrence of `needle`, or `none` (NULL). -/
def strstr : List Nat → List Nat → Option (List Nat)
  | [], needle => if needle.isPrefixOf [] then some [] else none
  | h :: hay, needle =>
    if needle.isPrefixOf (h :: hay) then some (h :: hay) else strstr hay needle

/-- C `strtok(s, ",")` on the text still to be scanned: skips leading commas;
returns `none` (NULL) when nothing is left, otherwise the token (the bytes up to
the next comma) and the text saved for the next `strtok(NULL, ",")` call. -/
def strtok (s : List Nat) : Option (List Nat × List Nat) :=
  match s.dropWhile (fun c => c == COMMA) with
  | [] => none
  | c :: cs =>
    some ((c :: cs).takeWhile (fun x => x != COMMA),
          ((c :: cs).dropWhile (fun x => x != COMMA)).drop 1)

/-- The digit loop of `atoi`: accumulates decimal digits until the first byte
that is not a digit. -/
def atoiDigits : Nat → List Nat → Nat
  | acc, [] => acc
  | acc, c :: cs => if isdigit c then atoiDigits (10 * acc + (c - 48)) cs else acc

/-- The sign and digit part of `atoi`, after the leading white space. -/
def atoiSigned : List Nat → Int
  | 45 :: rest => -((atoiDigits 0 rest : Nat) : Int)
  | 43 :: rest => ((atoiDigits 0 rest : Nat) : Int)
  | rest => ((atoiDigits 0 rest : Nat) : Int)

/-- C `atoi`: optional white space, optional sign, then decimal digits; `0` when
no digit follows.  The result is the mathematical value (C leaves the result
undefined when it does not fit an `int`). -/
def atoi (s : List Nat) : Int := atoiSigned (s.dropWhile isspace)

/-- Conversion `uint16_t value = <int>`: reduction modulo `2^16`. -/
def toUInt16 (n : Int) : Nat := (n % 65536).toNat

/-! ## The client object -/

/-- Size of the local `response` buffer of `poll()`. -/
def RESPONSE_BUFFER_SIZE : Nat := 128

/-- Capacity of `_lastError` (`char _lastError[64]`). -/
def LAST_ERROR_SIZE : Nat := 64

/-- Number of values of `unsigned long` (32 bits on the Arduino targets). -/
def ULONG_MOD : Nat := 2 ^ 32

/-- The literal `"32400!"`. -/
def RESPONSE_PREFIX : List Nat := [51, 50, 52, 48, 48, 33]

/-- The private fields of class `YOUNG_32400` (the `Stream` pointer is the
script of the run, not part of the state). -/
structure Client where
  _address : Nat
  _timeout : Nat
  _windSpeed : Nat
  _windDirection : Nat
  _vin1 : Nat
  _vin2 : Nat
  _vin3 : Nat
  _vin4 : Nat
  _dataValid : Bool
  _lastError : String
  deriving DecidableEq, Repr

/-- `clearError()`: `_lastError[0] = 0`. -/
def clearError (c : Client) : Client := { c with _lastError := "" }

/-- `setError(error)`: `strncpy` of at most 63 characters, then a terminator. -/
def setError (c : Client) (error : String) : Client :=
  { c with _lastError := String.mk (error.toList.take (LAST_ERROR_SIZE - 1)) }

/-- `getLastError()`. -/
def getLastError (c : Client) : String := c._lastError

/-- The constructor `YOUNG_32400(serial, address)`. -/
def construct (address : Nat) : Client :=
  clearError
    { _address := address, _timeout := 1000, _dataValid := false,
      _windSpeed := 0, _windDirection := 0, _vin1 := 0, _vin2 := 0, _vin3 := 0, _vin4 := 0,
      _lastError := "" }

/-- `begin()`. -/
def begin (c : Client) : Client := clearError c

/-- `setTimeout(timeout)`; the argument is an `unsigned long`. -/
def setTimeout (c : Client) (timeout : Nat) : Client := { c with _timeout := timeout % ULONG_MOD }

/-! ## parseResponse -/

/-- The `switch (fieldCount)` of `parseResponse`. -/
def assignField (c : Client) (fieldCount : Nat) (value : Nat) : Client :=
  match fieldCount with
  | 0 => { c with _windSpeed := value }
  | 1 => { c with _windDirection := value }
  | 2 => { c with _vin1 := value }
  | 3 => { c with _vin2 := value }
  | 4 => { c with _vin3 := value }
  | 5 => { c with _vin4 := value }
  | _ => c

/-- The loop `while (token != NULL && fieldCount < 6)` of `parseResponse`.
`token` is the result of the last `strtok` call.  The first argument bounds the
number of iterations; the loop runs at most six times because `fieldCount`
grows by one each time, so `parseResponse` passes `6`.  Returns the client and
the final `fieldCount`. -/
def fieldLoop : Nat → Client → Option (List Nat × List Nat) → Nat → Client × Nat
  | 0, c, _, fieldCount => (c, fieldCount)
  | _ + 1, c, none, fieldCount => (c, fieldCount)
  | n + 1, c, some (token, rest), fieldCount =>
    if fieldCount < 6 then
      fieldLoop n (assignField c fieldCount (toUInt16 (atoi token))) (strtok rest) (fieldCount + 1)
    else (c, fieldCount)

/-- The pointer `dataStart` of `parseResponse`: just past the first `"32400!"`
of the response, or the response itself when it has none. -/
def dataStart (response : List Nat) : List Nat :=
  match strstr response RESPONSE_PREFIX with
  | none => response
  | some at_ => at_.drop 6

/-- `parseResponse(response)`; `response` is the memory at the pointer, read as
a C string. -/
def parseResponse (c : Client) (response : List Nat) : Bool × Client :=
  let r := fieldLoop 6 c (strtok (dataStart (cstr response))) 0
  if r.2 < 6 then
    (false, { setError r.1 "Incomplete data received" with _dataValid := false })
  else
    (true, { r.1 with _dataValid := true })

/-! ## poll -/

/-- Why a run of `poll()` over a script yields no result. -/
inductive Stop where
  /-- The script of the stream or of the clock ended before `poll()` returned. -/
  | starved
  /-- A write outside `response[0 .. RESPONSE_BUFFER_SIZE - 1]`. -/
  | outOfBounds
  deriving DecidableEq, Repr

/-- One call of `poll()` to the stream or to the clock. -/
inductive Ev where
  /-- The call `available()` returned zero. -/
  | avail0
  /-- The call `available()` returned non-zero and `read()` returned `b`. -/
  | rd (b : Nat)
  /-- The call `print(b)` of the single character `b`. -/
  | wr (b : Nat)
  /-- The call `millis()` returned `t`. -/
  | clk (t : Nat)
  deriving DecidableEq, Repr

/-- The environment of one `poll()` call.  `chan` answers the successive
`available()` calls: `none` for zero, `some b` for non-zero with `b` the byte
the following `read()` returns.  `clock` answers the successive `millis()`
calls. -/
structure World where
  chan : List (Option Nat)
  clock : List Nat
  deriving DecidableEq, Repr

/-- The unsigned subtraction `a - b` on `unsigned long`. -/
def usub (a b : Nat) : Nat := (a % ULONG_MOD + (ULONG_MOD - b % ULONG_MOD)) % ULONG_MOD

/-- What the body of the wait loop does with one character. -/
inductive Step where
  /-- The loop goes on with these values of `foundData` and of the buffer. -/
  | next (foundData : Bool) (response : List Nat)
  /-- A terminator was read: `parseResponse(response)` is called. -/
  | frame (response : List Nat)
  /-- The branch `idx >= RESPONSE_BUFFER_SIZE - 1`. -/
  | overflow
  /-- A write outside the buffer. -/
  | fault
  deriving DecidableEq, Repr

/-- The body of `if (_serial->available())` for the character `c`.  `response`
holds the bytes written so far, so `idx` is its length and `response[idx++] = c`
appends `c` when `idx` is inside the buffer. -/
def onByte (foundData : Bool) (response : List Nat) (c : Nat) : Step :=
  if !foundData && (c == 51 || isdigit c) then
    if response.length < RESPONSE_BUFFER_SIZE then .next true (response ++ [c]) else .fault
  else if foundData then
    if response.length < RESPONSE_BUFFER_SIZE then
      let stored := response ++ [c]
      let idx := stored.length
      if c == CR || c == LF then
        if idx - 1 < RESPONSE_BUFFER_SIZE then .frame (stored.set (idx - 1) 0) else .fault
      else if idx ≥ RESPONSE_BUFFER_SIZE - 1 then
        if idx < RESPONSE_BUFFER_SIZE then .overflow else .fault
      else .next true stored
    else .fault
  else .next foundData response

/-- How the wait loop of `poll()` ends. -/
inductive Rx where
  /-- With `return parseResponse(response)`. -/
  | frame (response : List Nat)
  /-- With the overflow branch. -/
  | overflow
  /-- With the loop test false. -/
  | timeout
  deriving DecidableEq, Repr

/-- Puts the calls `evs` in front of the trace of a run. -/
def andThen {α : Type} (evs : List Ev) : Except Stop (α × List Ev) → Except Stop (α × List Ev)
  | .ok (a, tr) => .ok (a, evs ++ tr)
  | .error e => .error e

/-- The loop `while (_serial->available()) _serial->read();`.  Returns the calls
made and the rest of the stream script. -/
def flushInput : List (Option Nat) → Except Stop (List (Option Nat) × List Ev)
  | [] => .error .starved
  | none :: chan => .ok (chan, [.avail0])
  | some b :: chan => andThen [.rd b] (flushInput chan)

/-- The loop `while (millis() - startTime < _timeout)`: one clock reading per
test of the loop, one stream answer per iteration. -/
def waitLoop (timeout startTime : Nat) :
    List Nat → List (Option Nat) → Bool → List Nat → Except Stop (Rx × List Ev)
  | [], _, _, _ => .error .starved
  | now :: clock, chan, foundData, response =>
    if usub now startTime < timeout then
      match chan with
      | [] => .error .starved
      | none :: chan => andThen [.clk now, .avail0] (waitLoop timeout startTime clock chan foundData response)
      | some b :: chan =>
        match onByte foundData response (toChar b) with
        | .next foundData response =>
          andThen [.clk now, .rd b] (waitLoop timeout startTime clock chan foundData response)
        | .frame response => .ok (.frame response, [.clk now, .rd b])
        | .overflow => .ok (.overflow, [.clk now, .rd b])
        | .fault => .error .outOfBounds
    else .ok (.timeout, [.clk now])

/-- The result of a run of `poll()`: the value returned, the client afterwards,
and the calls made to the stream and the clock, in order. -/
structure PollResult where
  ret : Bool
  client : Client
  trace : List Ev
  deriving DecidableEq, Repr

/-- `poll()`. -/
def poll (c : Client) (w : World) : Except Stop PollResult :=
  let c := clearError c
  match flushInput w.chan with
  | .error e => .error e
  | .ok (chan, flushed) =>
    let request := [Ev.wr 77, Ev.wr c._address, Ev.wr 33]
    match w.clock with
    | [] => .error .starved
    | startTime :: clock =>
      match waitLoop c._timeout startTime clock chan false [] with
      | .error e => .error e
      | .ok (.frame response, tr) =>
        let r := parseResponse c response
        .ok { ret := r.1, client := r.2, trace := flushed ++ request ++ Ev.clk startTime :: tr }
      | .ok (.overflow, tr) =>
        .ok { ret := false, client := setError c "Response buffer overflow",
              trace := flushed ++ request ++ Ev.clk startTime :: tr }
      | .ok (.timeout, tr) =>
        .ok { ret := false, client := setError c "Timeout waiting for response",
              trace := flushed ++ request ++ Ev.clk startTime :: tr }

/-! ## Accessors -/

/-- `getWindSpeed()`, in exact arithmetic. -/
def getWindSpeed (c : Client) : ℚ := (c._windSpeed : ℚ) / 10

/-- `getWindDirection()`, in exact arithmetic. -/
def getWindDirection (c : Client) : ℚ := (c._windDirection : ℚ) / 10

/-- `getVIN1Raw()`. -/
def getVIN1Raw (c : Client) : Nat := c._vin1

/-- `getVIN2Raw()`. -/
def getVIN2Raw (c : Client) : Nat := c._vin2

/-- `getVIN3Raw()`. -/
def getVIN3Raw (c : Client) : Nat := c._vin3

/-- `getVIN4Raw()`. -/
def getVIN4Raw (c : Client) : Nat := c._vin4

/-- `getVIN1_mV()`, in exact arithmetic. -/
def getVIN1_mV (c : Client) : ℚ := (c._vin1 : ℚ) / 4

/-- `getVIN2_mV()`, in exact arithmetic. -/
def getVIN2_mV (c : Client) : ℚ := (c._vin2 : ℚ) / 4

/-- `getVIN3_mV()`, in exact arithmetic (`1.25` is `5/4`). -/
def getVIN3_mV (c : Client) : ℚ := (c._vin3 : ℚ) * (5 / 4)

/-- `getVIN4_mV()`, in exact arithmetic (`1.25` is `5/4`). -/
def getVIN4_mV (c : Client) : ℚ := (c._vin4 : ℚ) * (5 / 4)

/-- `convertToTemperature(rawValue)`, in exact arithmetic. -/
def convertToTemperature (rawValue : Nat) : ℚ :=
  let voltage_mV : ℚ := (rawValue : ℚ) / 4
  let temperature : ℚ := -50 + voltage_mV / 10
  temperature

/-- `getTemperatureVIN1()`. -/
def getTemperatureVIN1 (c : Client) : ℚ := convertToTemperature c._vin1

/-- `getTemperatureVIN2()`. -/
def getTemperatureVIN2 (c : Client) : ℚ := convertToTemperature c._vin2


/-! ## Notions the properties are stated with -/

/-- The comma-separated tokens of a text: the text split at every comma, empty
tokens included. -/
def commaTokens (text : List Nat) : List (List Nat) := text.splitOn COMMA

/-- The non-empty comma-separated tokens of a text. -/
def fields (text : List Nat) : List (List Nat) := (commaTokens text).filter (fun t => !t.isEmpty)

/-- The value of a string of decimal digits. -/
def decimalValue (t : List Nat) : Nat := Nat.ofDigits 10 (t.reverse.map (fun d => d - 48))

/-- Stores the values `vs` in the measurement fields numbered `k`, `k + 1`, ... -/
def assignFrom : Client → Nat → List Nat → Client
  | c, _, [] => c
  | c, k, v :: vs => assignFrom (assignField c k v) (k + 1) vs

/-- The characters a stretch of the stream script delivers: the bytes of its
non-zero answers, each converted to `char`. -/
def delivered (items : List (Option Nat)) : List Nat := (items.filterMap id).map toChar

/-- The body of the wait loop run over a list of characters, up to the first
one that ends the loop. -/
def feed : Bool → List Nat → List Nat → Step
  | foundData, response, [] => .next foundData response
  | foundData, response, c :: cs =>
    match onByte foundData response c with
    | .next foundData response => feed foundData response cs
    | .frame response => .frame response
    | .overflow => .overflow
    | .fault => .fault

/-- The calls made by iterations of the wait loop that read the clock values
`ts` and get the stream answers `items`. -/
def loopEvents : List Nat → List (Option Nat) → List Ev
  | t :: ts, none :: items => Ev.clk t :: Ev.avail0 :: loopEvents ts items
  | t :: ts, some b :: items => Ev.clk t :: Ev.rd b :: loopEvents ts items
  | _, _ => []

/-- The measurement field at a position, in the order `_windSpeed`,
`_windDirection`, `_vin1`, `_vin2`, `_vin3`, `_vin4`. -/
def fieldAt (c : Client) (i : Nat) : Nat :=
  match i with
  | 0 => c._windSpeed
  | 1 => c._windDirection
  | 2 => c._vin1
  | 3 => c._vin2
  | 4 => c._vin3
  | 5 => c._vin4
  | _ => 0

/-- What is left of a text after an optional sign. -/
def afterSign : List Nat → List Nat
  | 45 :: rest => rest
  | 43 :: rest => rest
  | rest => rest

/-- A token that begins, after optional white space and an optional sign, with a
decimal digit. -/
def beginsWithNumber (t : List Nat) : Bool :=
  match afterSign (t.dropWhile isspace) with
  | [] => false
  | c :: _ => isdigit c

/-! ## Sample runs -/

/-- A stream that holds nothing stale and then delivers `1,2,3,4,5,6` and a
line feed, one byte per iteration, with a clock that advances by one. -/
def sixTokenWorld : World :=
  { chan := none :: (bytes "1,2,3,4,5,6" ++ [LF]).map some, clock := 0 :: List.range 12 }

/-- The run of a fresh client with address `0` over `sixTokenWorld`. -/
def sixTokenRun : PollResult :=
  { ret := true,
    client :=
      { construct 48 with
        _windSpeed := 1, _windDirection := 2, _vin1 := 3, _vin2 := 4, _vin3 := 5, _vin4 := 6,
        _dataValid := true },
    trace :=
      [Ev.avail0, Ev.wr 77, Ev.wr 48, Ev.wr 33, Ev.clk 0] ++
        loopEvents (List.range 12) ((bytes "1,2,3,4,5,6" ++ [LF]).map some) }

/-- A stream that stays silent until the default timeout of 1000 ms is over. -/
def silentWorld : World := { chan := [none], clock := [0, 1000] }

/-- The run over `silentWorld` of the client left by `sixTokenRun`. -/
def silentRun : PollResult :=
  { ret := false,
    client := setError sixTokenRun.client "Timeout waiting for response",
    trace := [Ev.avail0, Ev.wr 77, Ev.wr 48, Ev.wr 33, Ev.clk 0, Ev.clk 1000] }

/-- A stream that holds two stale bytes and then delivers `7` and a line feed. -/
def staleWorld : World :=
  { chan := [some 120, some 121, none, some 55, some LF], clock := [0, 1, 2, 3] }

/-- The run of a fresh client with address `0` over `staleWorld`. -/
def staleRun : PollResult :=
  { ret := false,
    client :=
      { setError (construct 48) "Incomplete data received" with _windSpeed := 7 },
    trace :=
      [Ev.rd 120, Ev.rd 121, Ev.avail0, Ev.wr 77, Ev.wr 48, Ev.wr 33, Ev.clk 0,
        Ev.clk 1, Ev.rd 55, Ev.clk 2, Ev.rd LF] }

/-- A client whose four raw analog values lie in the nominal range 0 .. 4000. -/
def nominalClient : Client :=
  { construct 48 with _vin1 := 4000, _vin2 := 1234, _vin3 := 4000, _vin4 := 1 }

/-- A client whose `_vin1` and `_vin4` lie in the nominal range 0 .. 4000 while
`_vin2` and `_vin3` lie above it. -/
def mixedClient : Client :=
  { construct 48 with _vin1 := 4000, _vin2 := 4001, _vin3 := 65535, _vin4 := 2000 }

/-! ## Frame conditions of the field loop -/

theorem assignField_frame (c : Client) (k v : Nat) :
    (assignField c k v)._lastError = c._lastError ∧
    (assignField c k v)._dataValid = c._dataValid ∧
    (assignField c k v)._address = c._address ∧
    (assignField c k v)._timeout = c._timeout := by
  unfold assignField
  split <;> simp

theorem fieldLoop_frame (n : Nat) : ∀ (c : Client) (tok : Option (List Nat × List Nat)) (k : Nat),
    (fieldLoop n c tok k).1._lastError = c._lastError ∧
    (fieldLoop n c tok k).1._dataValid = c._dataValid ∧
    (fieldLoop n c tok k).1._address = c._address ∧
    (fieldLoop n c tok k).1._timeout = c._timeout := by
  induction n with
  | zero => intro c tok k; simp [fieldLoop]
  | succ n ih =>
    intro c tok k
    cases tok with
    | none => simp [fieldLoop]
    | some p =>
      obtain ⟨token, rest⟩ := p
      simp only [fieldLoop]
      split
      · have h := ih (assignField c k (toUInt16 (atoi token))) (strtok rest) (k + 1)
        have g := assignField_frame c k (toUInt16 (atoi token))
        exact ⟨h.1.trans g.1, h.2.1.trans g.2.1, h.2.2.1.trans g.2.2.1, h.2.2.2.trans g.2.2.2⟩
      · simp

theorem setError_incomplete (c : Client) :
    (setError c "Incomplete data received")._lastError = "Incomplete data received" := by
  rfl

theorem setError_overflow (c : Client) :
    (setError c "Response buffer overflow")._lastError = "Response buffer overflow" := by
  rfl

theorem setError_timeout (c : Client) :
    (setError c "Timeout waiting for response")._lastError = "Timeout waiting for response" := by
  rfl

/-- The two ways `parseResponse` returns, seen from the error field. -/
theorem parseResponse_error (c : Client) (response : List Nat) :
    ((parseResponse c response).1 = true ∧
        (parseResponse c response).2._lastError = c._lastError) ∨
    ((parseResponse c response).1 = false ∧
        (parseResponse c response).2._lastError = "Incomplete data received") := by
  unfold parseResponse
  simp only []
  split
  · right
    exact ⟨rfl, rfl⟩
  · left
    exact ⟨rfl, (fieldLoop_frame 6 c _ 0).1⟩

/-- The shape of every result of `poll`. -/
theorem poll_cases (c : Client) (w : World) (r : PollResult) (h : poll c w = .ok r) :
    (∃ response, r.ret = (parseResponse (clearError c) response).1 ∧
        r.client = (parseResponse (clearError c) response).2) ∨
    (r.ret = false ∧ r.client = setError (clearError c) "Response buffer overflow") ∨
    (r.ret = false ∧ r.client = setError (clearError c) "Timeout waiting for response") := by
  unfold poll at h
  simp only [] at h
  split at h
  · cases h
  · split at h
    · cases h
    · split at h
      · cases h
      · injection h with h
        subst h
        exact Or.inl ⟨_, rfl, rfl⟩
      · injection h with h
        subst h
        exact Or.inr (Or.inl ⟨rfl, rfl⟩)
      · injection h with h
        subst h
        exact Or.inr (Or.inr ⟨rfl, rfl⟩)

/-! ## Tokens -/

theorem commaTokens_nil : commaTokens [] = [[]] := by
  simp [commaTokens, List.splitOn]

theorem commaTokens_comma (cs : List Nat) : commaTokens (COMMA :: cs) = [] :: commaTokens cs := by
  simp [commaTokens, List.splitOn, List.splitOnP_cons]

theorem commaTokens_cons (c : Nat) (cs : List Nat) (h : c ≠ COMMA) :
    commaTokens (c :: cs) = (commaTokens cs).modifyHead (List.cons c) := by
  simp [commaTokens, List.splitOn, List.splitOnP_cons, h]

theorem commaTokens_ne_nil (s : List Nat) : commaTokens s ≠ [] := by
  simp [commaTokens, List.splitOn, List.splitOnP_ne_nil]

/-- The tokens of a text: its first comma-free run, then the tokens of what
follows the first comma. -/
theorem commaTokens_eq (s : List Nat) :
    commaTokens s = s.takeWhile (fun x => x != COMMA) ::
      (match s.dropWhile (fun x => x != COMMA) with
        | [] => []
        | _ :: rest => commaTokens rest) := by
  induction s with
  | nil => simp [commaTokens_nil]
  | cons c cs ih =>
    by_cases h : c = COMMA
    · subst h
      simp [commaTokens_comma]
    · rw [commaTokens_cons c cs h, ih]
      simp [h]

theorem fields_nil : fields [] = [] := by
  simp [fields, commaTokens_nil]

theorem fields_comma (cs : List Nat) : fields (COMMA :: cs) = fields cs := by
  simp [fields, commaTokens_comma]

theorem fields_cons (c : Nat) (cs : List Nat) (h : c ≠ COMMA) :
    fields (c :: cs) = (c :: cs).takeWhile (fun x => x != COMMA) ::
      fields (((c :: cs).dropWhile (fun x => x != COMMA)).drop 1) := by
  unfold fields
  rw [commaTokens_eq (c :: cs)]
  simp only [List.takeWhile_cons, List.dropWhile_cons, bne_iff_ne, ne_eq, h, not_false_eq_true,
    decide_True, ite_true, List.filter_cons, List.isEmpty_cons, Bool.not_false]
  congr 1
  cases hd : cs.dropWhile (fun x => x != COMMA) with
  | nil => simp [commaTokens_nil]
  | cons y ys => simp

theorem strtok_comma (cs : List Nat) : strtok (COMMA :: cs) = strtok cs := by
  simp [strtok]

theorem strtok_cons (c : Nat) (cs : List Nat) (h : c ≠ COMMA) :
    strtok (c :: cs) = some ((c :: cs).takeWhile (fun x => x != COMMA),
      ((c :: cs).dropWhile (fun x => x != COMMA)).drop 1) := by
  have hc : (c == COMMA) = false := by simpa using h
  simp [strtok, List.dropWhile_cons, hc]

/-- `strtok` returns NULL exactly when the text has no non-empty token, and
otherwise the first non-empty token, leaving the text that holds the others. -/
theorem strtok_fields (s : List Nat) :
    (strtok s = none ∧ fields s = []) ∨
    (∃ t rest, strtok s = some (t, rest) ∧ fields s = t :: fields rest) := by
  induction s with
  | nil => left; simp [strtok, fields_nil]
  | cons c cs ih =>
    by_cases h : c = COMMA
    · subst h
      rw [strtok_comma, fields_comma]
      exact ih
    · right
      exact ⟨_, _, strtok_cons c cs h, fields_cons c cs h⟩

/-- The field loop stores the values of the leading non-empty tokens, one per
iteration, and counts them. -/
theorem fieldLoop_fields (n : Nat) : ∀ (c : Client) (s : List Nat) (k : Nat),
    fieldLoop n c (strtok s) k =
      (assignFrom c k (((fields s).take (min n (6 - k))).map (fun t => toUInt16 (atoi t))),
       k + min (fields s).length (min n (6 - k))) := by
  induction n with
  | zero => intro c s k; simp [fieldLoop, assignFrom]
  | succ n ih =>
    intro c s k
    rcases strtok_fields s with ⟨h1, h2⟩ | ⟨t, rest, h1, h2⟩
    · rw [h1, h2]
      simp [fieldLoop, assignFrom]
    · rw [h1, h2]
      simp only [fieldLoop]
      split
      · rename_i hk
        rw [ih]
        have hm : min (n + 1) (6 - k) = min n (6 - (k + 1)) + 1 := by omega
        rw [hm]
        simp only [List.take_succ_cons, List.map_cons, assignFrom, List.length_cons]
        congr 1
        omega
      · rename_i hk
        have hm : min (n + 1) (6 - k) = 0 := by omega
        rw [hm]
        simp [assignFrom]

/-- `parseResponse` in terms of the non-empty tokens of the text after the
prefix. -/
theorem parseResponse_fields (c : Client) (response : List Nat) :
    parseResponse c response =
      if (fields (dataStart (cstr response))).length < 6 then
        (false,
          { setError (assignFrom c 0 ((fields (dataStart (cstr response))).map
              (fun t => toUInt16 (atoi t)))) "Incomplete data received" with _dataValid := false })
      else
        (true,
          { assignFrom c 0 (((fields (dataStart (cstr response))).take 6).map
              (fun t => toUInt16 (atoi t))) with _dataValid := true }) := by
  unfold parseResponse
  simp only [fieldLoop_fields]
  by_cases h : (fields (dataStart (cstr response))).length < 6
  · have h1 : 0 + min (fields (dataStart (cstr response))).length (min 6 (6 - 0)) < 6 := by omega
    rw [if_pos h1, if_pos h]
    have h2 : List.take (min 6 (6 - 0)) (fields (dataStart (cstr response))) =
        fields (dataStart (cstr response)) := by
      apply List.take_of_length_le
      omega
    rw [h2]
  · have h1 : ¬ (0 + min (fields (dataStart (cstr response))).length (min 6 (6 - 0)) < 6) := by omega
    rw [if_neg h1, if_neg h]
    simp

/-! ## Numbers -/

theorem decimalValue_cons (c : Nat) (cs : List Nat) :
    decimalValue (c :: cs) = (c - 48) * 10 ^ cs.length + decimalValue cs := by
  simp [decimalValue, Nat.ofDigits_append, Nat.ofDigits_singleton]
  ring

theorem atoiDigits_digits (t : List Nat) : ∀ (acc : Nat), (∀ d ∈ t, isdigit d = true) →
    atoiDigits acc t = acc * 10 ^ t.length + decimalValue t := by
  induction t with
  | nil => intro acc _; simp [atoiDigits, decimalValue]
  | cons c cs ih =>
    intro acc h
    have hc : isdigit c = true := h c (List.mem_cons_self c cs)
    have hcs : ∀ d ∈ cs, isdigit d = true := fun d hd => h d (List.mem_cons_of_mem c hd)
    rw [atoiDigits, if_pos hc, ih _ hcs, decimalValue_cons, List.length_cons]
    ring

theorem isdigit_bounds (c : Nat) (h : isdigit c = true) : 48 ≤ c ∧ c ≤ 57 := by
  simpa [isdigit] using h

/-- On a string of decimal digits `atoi` returns its value. -/
theorem atoi_digits (t : List Nat) (h : ∀ d ∈ t, isdigit d = true) :
    atoi t = (decimalValue t : Int) := by
  cases t with
  | nil => simp [atoi, atoiSigned, atoiDigits, decimalValue]
  | cons c cs =>
    have hc := isdigit_bounds c (h c (List.mem_cons_self c cs))
    have hsp : isspace c = false := by
      simp [isspace]
      omega
    have h45 : c ≠ 45 := by omega
    have h43 : c ≠ 43 := by omega
    unfold atoi
    rw [List.dropWhile_cons, hsp]
    simp only [Bool.false_eq_true, if_false]
    unfold atoiSigned
    split
    · rename_i heq
      injection heq with h1 _
      exact absurd h1 h45
    · rename_i heq
      injection heq with h1 _
      exact absurd h1 h43
    · rw [atoiDigits_digits _ 0 h]
      simp

theorem toUInt16_natCast (v : Nat) (h : v ≤ 65535) : toUInt16 (v : Int) = v := by
  unfold toUInt16
  omega

/-! ## The C string and the prefix -/

theorem cstr_eq_self (s : List Nat) (h : ∀ x ∈ s, x ≠ 0) : cstr s = s := by
  unfold cstr
  rw [List.takeWhile_eq_self_iff]
  intro x hx
  simpa using h x hx

theorem strstr_eq_none (needle : List Nat) (s : List Nat) :
    strstr s needle = none ↔ ¬ needle <:+: s := by
  induction s with
  | nil =>
    simp only [strstr, List.isPrefixOf_iff_prefix]
    by_cases h : needle <+: []
    · simp [h, h.isInfix]
    · simp only [h, if_false, true_iff]
      intro hi
      exact h (by simpa using hi)
  | cons x xs ih =>
    simp only [strstr, List.isPrefixOf_iff_prefix]
    by_cases h : needle <+: x :: xs
    · simp [h, h.isInfix]
    · simp only [h, if_false, ih, List.infix_cons_iff, false_or]

theorem dataStart_prefixed (text : List Nat) : dataStart (RESPONSE_PREFIX ++ text) = text := by
  simp [dataStart, RESPONSE_PREFIX, strstr, List.isPrefixOf]

theorem dataStart_plain (text : List Nat) (h : ¬ RESPONSE_PREFIX <:+: text) :
    dataStart text = text := by
  unfold dataStart
  rw [(strstr_eq_none RESPONSE_PREFIX text).mpr h]

theorem cstr_prefixed (text : List Nat) :
    cstr (RESPONSE_PREFIX ++ text) = RESPONSE_PREFIX ++ cstr text := by
  simp [cstr, RESPONSE_PREFIX, List.takeWhile_cons]

/-- Every byte of a text is a comma or lies in one of its tokens. -/
theorem mem_commaTokens (s : List Nat) :
    ∀ x ∈ s, x = COMMA ∨ ∃ t ∈ commaTokens s, x ∈ t := by
  induction s with
  | nil => intro x hx; cases hx
  | cons c cs ih =>
    intro x hx
    by_cases h : c = COMMA
    · subst h
      rw [commaTokens_comma]
      rcases List.mem_cons.mp hx with h1 | h1
      · exact Or.inl h1
      · rcases ih x h1 with h2 | ⟨t, ht, hxt⟩
        · exact Or.inl h2
        · exact Or.inr ⟨t, List.mem_cons_of_mem _ ht, hxt⟩
    · rw [commaTokens_cons c cs h]
      cases hs : commaTokens cs with
      | nil => exact absurd hs (commaTokens_ne_nil cs)
      | cons t0 ts =>
        rw [hs] at ih
        simp only [List.modifyHead_cons]
        rcases List.mem_cons.mp hx with h1 | h1
        · exact Or.inr ⟨c :: t0, List.mem_cons_self _ _, by rw [h1]; exact List.mem_cons_self _ _⟩
        · rcases ih x h1 with h2 | ⟨t, ht, hxt⟩
          · exact Or.inl h2
          · rcases List.mem_cons.mp ht with h3 | h3
            · exact Or.inr ⟨c :: t0, List.mem_cons_self _ _, by
                rw [← h3]; exact List.mem_cons_of_mem _ hxt⟩
            · exact Or.inr ⟨t, List.mem_cons_of_mem _ h3, hxt⟩

theorem fields_eq_commaTokens (s : List Nat) (h : ∀ t ∈ commaTokens s, t ≠ []) :
    fields s = commaTokens s := by
  unfold fields
  rw [List.filter_eq_self]
  intro t ht
  have := h t ht
  cases t with
  | nil => exact absurd rfl this
  | cons a as => rfl

theorem length_fields_le (s : List Nat) : (fields s).length ≤ (commaTokens s).length := by
  unfold fields
  exact List.length_filter_le _ _

theorem length_commaTokens (s : List Nat) : (commaTokens s).length = s.count COMMA + 1 := by
  induction s with
  | nil => simp [commaTokens_nil]
  | cons c cs ih =>
    by_cases h : c = COMMA
    · subst h
      simp [commaTokens_comma, ih]
    · rw [commaTokens_cons c cs h, List.length_modifyHead, ih,
        List.count_cons_of_ne (fun e => h e.symm)]

theorem strstr_suffix (needle : List Nat) (s : List Nat) :
    ∀ found, strstr s needle = some found → found <:+ s := by
  induction s with
  | nil =>
    intro found h
    simp only [strstr] at h
    split at h
    · injection h with h
      rw [← h]
    · cases h
  | cons x xs ih =>
    intro found h
    simp only [strstr] at h
    split at h
    · injection h with h
      rw [← h]
    · exact (ih found h).trans (List.suffix_cons x xs)

/-- The text `parseResponse` tokenises is a contiguous part of the response. -/
theorem dataStart_cstr_within (response : List Nat) : dataStart (cstr response) <:+: response := by
  have h1 : dataStart (cstr response) <:+ cstr response := by
    unfold dataStart
    split
    · exact List.suffix_refl _
    · rename_i found hf
      exact (List.drop_suffix 6 found).trans (strstr_suffix _ _ found hf)
  have h2 : cstr response <+: response := List.takeWhile_prefix _
  exact h1.isInfix.trans h2.isInfix

/-- A contiguous part of a text has no more tokens than the text. -/
theorem length_fields_within (part whole : List Nat) (h : part <:+: whole) :
    (fields part).length ≤ (commaTokens whole).length := by
  have h1 := length_fields_le part
  rw [length_commaTokens] at h1
  rw [length_commaTokens]
  have h2 := h.sublist.count_le COMMA
  omega

theorem assignField_vin4 (c : Client) (k v : Nat) (h : k ≠ 5) :
    (assignField c k v)._vin4 = c._vin4 := by
  unfold assignField
  split <;> simp_all

/-- Values stored before the sixth position leave `_vin4` alone. -/
theorem assignFrom_vin4 (vs : List Nat) : ∀ (c : Client) (k : Nat), k + vs.length ≤ 5 →
    (assignFrom c k vs)._vin4 = c._vin4 := by
  induction vs with
  | nil => intro c k _; rfl
  | cons v vs ih =>
    intro c k h
    simp only [List.length_cons] at h
    rw [assignFrom, ih _ _ (by omega), assignField_vin4 c k v (by omega)]

/-- A failed parse leaves `_vin4` alone. -/
theorem parseResponse_false_vin4 (c : Client) (response : List Nat)
    (h : (parseResponse c response).1 = false) :
    (parseResponse c response).2._vin4 = c._vin4 := by
  rw [parseResponse_fields] at h ⊢
  split at h
  · rename_i hlen
    rw [if_pos hlen]
    show (assignFrom c 0 _)._vin4 = c._vin4
    apply assignFrom_vin4
    simp only [List.length_map]
    omega
  · cases h

/-! ## The wait loop -/

theorem andThen_nil {α : Type} (x : Except Stop (α × List Ev)) : andThen [] x = x := by
  cases x with
  | error e => rfl
  | ok p => rfl

theorem andThen_andThen {α : Type} (a b : List Ev) (x : Except Stop (α × List Ev)) :
    andThen a (andThen b x) = andThen (a ++ b) x := by
  cases x with
  | error e => rfl
  | ok p => simp [andThen]

theorem andThen_ok {α : Type} (a : List Ev) (v : α) (tr : List Ev) :
    andThen a (Except.ok (v, tr)) = Except.ok (v, a ++ tr) := rfl

theorem delivered_none (items : List (Option Nat)) : delivered (none :: items) = delivered items := by
  simp [delivered]

theorem delivered_some (b : Nat) (items : List (Option Nat)) :
    delivered (some b :: items) = toChar b :: delivered items := by
  simp [delivered]

theorem waitLoop_none (timeout start t : Nat) (clock : List Nat) (chan : List (Option Nat))
    (foundData : Bool) (response : List Nat) (ht : usub t start < timeout) :
    waitLoop timeout start (t :: clock) (none :: chan) foundData response =
      andThen [Ev.clk t, Ev.avail0] (waitLoop timeout start clock chan foundData response) := by
  simp only [waitLoop, if_pos ht]

theorem waitLoop_some (timeout start t b : Nat) (clock : List Nat) (chan : List (Option Nat))
    (foundData : Bool) (response : List Nat) (ht : usub t start < timeout) :
    waitLoop timeout start (t :: clock) (some b :: chan) foundData response =
      match onByte foundData response (toChar b) with
      | .next foundData response =>
        andThen [Ev.clk t, Ev.rd b] (waitLoop timeout start clock chan foundData response)
      | .frame response => .ok (.frame response, [Ev.clk t, Ev.rd b])
      | .overflow => .ok (.overflow, [Ev.clk t, Ev.rd b])
      | .fault => .error .outOfBounds := by
  simp only [waitLoop, if_pos ht]

theorem waitLoop_late (timeout start t : Nat) (clock : List Nat) (chan : List (Option Nat))
    (foundData : Bool) (response : List Nat) (ht : ¬ usub t start < timeout) :
    waitLoop timeout start (t :: clock) chan foundData response = .ok (.timeout, [Ev.clk t]) := by
  simp only [waitLoop, if_neg ht]

theorem feed_cons (foundData : Bool) (response : List Nat) (c : Nat) (cs : List Nat) :
    feed foundData response (c :: cs) =
      match onByte foundData response c with
      | .next foundData response => feed foundData response cs
      | .frame response => .frame response
      | .overflow => .overflow
      | .fault => .fault := by
  rw [feed]

/-- The wait loop, over iterations whose clock readings are all within the
timeout, does to `foundData` and the buffer what `feed` does with the
characters delivered in these iterations. -/
theorem waitLoop_feed (timeout start : Nat) (clock : List Nat) (chan : List (Option Nat))
    (ts : List Nat) : ∀ (items : List (Option Nat)) (foundData : Bool) (response : List Nat),
    ts.length = items.length → (∀ t ∈ ts, usub t start < timeout) →
    (∀ f r, feed foundData response (delivered items) = .next f r →
      waitLoop timeout start (ts ++ clock) (items ++ chan) foundData response =
        andThen (loopEvents ts items) (waitLoop timeout start clock chan f r)) ∧
    (∀ r, feed foundData response (delivered items) = .frame r →
      ∃ tr, waitLoop timeout start (ts ++ clock) (items ++ chan) foundData response =
        .ok (.frame r, tr)) ∧
    (feed foundData response (delivered items) = .overflow →
      ∃ tr, waitLoop timeout start (ts ++ clock) (items ++ chan) foundData response =
        .ok (.overflow, tr)) ∧
    (feed foundData response (delivered items) = .fault →
      waitLoop timeout start (ts ++ clock) (items ++ chan) foundData response =
        .error .outOfBounds) := by
  induction ts with
  | nil =>
    intro items foundData response hlen _
    cases items with
    | cons i is => simp at hlen
    | nil =>
      simp only [delivered, List.filterMap_nil, List.map_nil, feed, List.nil_append, loopEvents,
        andThen_nil]
      refine ⟨?_, ?_, ?_, ?_⟩
      · intro f r h
        injection h with h1 h2
        rw [h1, h2]
      · intro r h; cases h
      · intro h; cases h
      · intro h; cases h
  | cons t ts ih =>
    intro items foundData response hlen hin
    cases items with
    | nil => simp at hlen
    | cons i is =>
      have hlen1 : ts.length = is.length := by simpa using hlen
      have ht : usub t start < timeout := hin t (List.mem_cons_self t ts)
      have hin1 : ∀ t1 ∈ ts, usub t1 start < timeout :=
        fun t1 h1 => hin t1 (List.mem_cons_of_mem t h1)
      rw [List.cons_append, List.cons_append]
      cases i with
      | none =>
        have h := ih is foundData response hlen1 hin1
        rw [waitLoop_none _ _ _ _ _ _ _ ht, delivered_none]
        refine ⟨?_, ?_, ?_, ?_⟩
        · intro f r hf
          rw [h.1 f r hf, andThen_andThen]
          rfl
        · intro r hf
          obtain ⟨tr, htr⟩ := h.2.1 r hf
          exact ⟨_, by rw [htr]; rfl⟩
        · intro hf
          obtain ⟨tr, htr⟩ := h.2.2.1 hf
          exact ⟨_, by rw [htr]; rfl⟩
        · intro hf
          rw [h.2.2.2 hf]
          rfl
      | some b =>
        rw [waitLoop_some _ _ _ _ _ _ _ _ ht, delivered_some, feed_cons]
        cases hstep : onByte foundData response (toChar b) with
        | next f1 r1 =>
          have h := ih is f1 r1 hlen1 hin1
          simp only []
          refine ⟨?_, ?_, ?_, ?_⟩
          · intro f r hf
            rw [h.1 f r hf, andThen_andThen]
            rfl
          · intro r hf
            obtain ⟨tr, htr⟩ := h.2.1 r hf
            exact ⟨_, by rw [htr]; rfl⟩
          · intro hf
            obtain ⟨tr, htr⟩ := h.2.2.1 hf
            exact ⟨_, by rw [htr]; rfl⟩
          · intro hf
            rw [h.2.2.2 hf]
            rfl
        | frame r1 =>
          simp only []
          refine ⟨?_, ?_, ?_, ?_⟩
          · intro f r hf; cases hf
          · intro r hf
            injection hf with hf
            rw [hf]
            exact ⟨_, rfl⟩
          · intro hf; cases hf
          · intro hf; cases hf
        | overflow =>
          simp only []
          refine ⟨?_, ?_, ?_, ?_⟩
          · intro f r hf; cases hf
          · intro r hf; cases hf
          · intro _; exact ⟨_, rfl⟩
          · intro hf; cases hf
        | fault =>
          simp only []
          refine ⟨?_, ?_, ?_, ?_⟩
          · intro f r hf; cases hf
          · intro r hf; cases hf
          · intro hf; cases hf
          · intro _; trivial

/-! ## Framing -/

theorem onByte_seek_skip (response : List Nat) (c : Nat) (h : isdigit c = false) :
    onByte false response c = .next false response := by
  have h51 : (c == 51) = false := by
    cases hc : c == 51 with
    | false => rfl
    | true =>
      have : c = 51 := by simpa using hc
      rw [this] at h
      exact absurd h (by decide)
  simp [onByte, h, h51]

theorem onByte_seek_digit (c : Nat) (h : isdigit c = true) :
    onByte false [] c = .next true [c] := by
  simp [onByte, h, RESPONSE_BUFFER_SIZE]

theorem onByte_store (response : List Nat) (c : Nat) (hcr : c ≠ CR) (hlf : c ≠ LF)
    (hlen : response.length + 1 < 127) :
    onByte true response c = .next true (response ++ [c]) := by
  have h1 : (c == CR) = false := by simpa using hcr
  have h2 : (c == LF) = false := by simpa using hlf
  have h3 : response.length < 128 := by omega
  have h4 : ¬ (response.length + 1 ≥ 128 - 1) := by omega
  simp [onByte, h1, h2, h3, RESPONSE_BUFFER_SIZE]
  omega

theorem onByte_overflow (response : List Nat) (c : Nat) (hcr : c ≠ CR) (hlf : c ≠ LF)
    (hlen : response.length = 126) :
    onByte true response c = .overflow := by
  have h1 : (c == CR) = false := by simpa using hcr
  have h2 : (c == LF) = false := by simpa using hlf
  simp [onByte, h1, h2, hlen, RESPONSE_BUFFER_SIZE]

theorem onByte_terminator (response : List Nat) (c : Nat) (hc : c = CR ∨ c = LF)
    (hlen : response.length < 128) :
    onByte true response c = .frame (response ++ [0]) := by
  have h1 : (c == CR || c == LF) = true := by
    rcases hc with h | h <;> simp [h]
  simp [onByte, h1, hlen, RESPONSE_BUFFER_SIZE]

/-- While accumulating, characters other than CR and LF are appended as long as
fewer than 127 bytes are held. -/
theorem feed_accumulate (cs : List Nat) : ∀ (response : List Nat),
    (∀ x ∈ cs, x ≠ CR ∧ x ≠ LF) → response.length + cs.length < 127 →
    feed true response cs = .next true (response ++ cs) := by
  induction cs with
  | nil => intro response _ _; simp [feed]
  | cons c cs ih =>
    intro response hcr hlen
    simp only [List.length_cons] at hlen
    have hc := hcr c (List.mem_cons_self c cs)
    rw [feed_cons, onByte_store response c hc.1 hc.2 (by omega)]
    simp only []
    rw [ih (response ++ [c]) (fun x hx => hcr x (List.mem_cons_of_mem c hx))
      (by simp only [List.length_append, List.length_singleton]; omega)]
    simp

/-- While seeking, characters that are not digits are dropped. -/
theorem feed_seek (junk : List Nat) (rest : List Nat) (h : ∀ x ∈ junk, isdigit x = false) :
    feed false [] (junk ++ rest) = feed false [] rest := by
  induction junk with
  | nil => rfl
  | cons c cs ih =>
    rw [List.cons_append, feed_cons, onByte_seek_skip [] c (h c (List.mem_cons_self c cs))]
    exact ih (fun x hx => h x (List.mem_cons_of_mem c hx))

/-- Without CR or LF, and with fewer than 127 characters from the first digit
on, the loop body never ends the loop. -/
theorem feed_pending (cs : List Nat) (hcr : ∀ x ∈ cs, x ≠ CR ∧ x ≠ LF)
    (hfew : (cs.dropWhile (fun x => !isdigit x)).length < 127) :
    ∃ f, feed false [] cs = .next f (cs.dropWhile (fun x => !isdigit x)) := by
  induction cs with
  | nil => exact ⟨false, rfl⟩
  | cons c cs ih =>
    cases hd : isdigit c with
    | false =>
      rw [List.dropWhile_cons, hd] at hfew ⊢
      simp only [Bool.not_false, if_true] at hfew ⊢
      rw [feed_cons, onByte_seek_skip [] c hd]
      exact ih (fun x hx => hcr x (List.mem_cons_of_mem c hx)) hfew
    | true =>
      rw [List.dropWhile_cons, hd] at hfew ⊢
      simp only [Bool.not_true, Bool.false_eq_true, if_false, List.length_cons] at hfew ⊢
      rw [feed_cons, onByte_seek_digit c hd]
      simp only []
      rw [feed_accumulate cs [c] (fun x hx => hcr x (List.mem_cons_of_mem c hx))
        (by simp only [List.length_singleton]; omega)]
      exact ⟨true, rfl⟩

/-- The 127th character from the first digit on, when no CR or LF came after
that digit, takes the overflow branch. -/
theorem feed_overflow (junk : List Nat) (d : Nat) (body more : List Nat)
    (hjunk : ∀ x ∈ junk, isdigit x = false) (hd : isdigit d = true)
    (hbody : body.length = 126) (hcr : ∀ x ∈ body, x ≠ CR ∧ x ≠ LF) :
    feed false [] (junk ++ d :: body ++ more) = .overflow := by
  obtain ⟨init, last, hsplit⟩ : ∃ init last, body = init ++ [last] := by
    cases h : body.reverse with
    | nil =>
      have : body = [] := by simpa using h
      rw [this] at hbody
      cases hbody
    | cons x xs =>
      refine ⟨xs.reverse, x, ?_⟩
      have := congrArg List.reverse h
      simpa using this
  subst hsplit
  simp only [List.length_append, List.length_singleton] at hbody
  have hinit : ∀ x ∈ init, x ≠ CR ∧ x ≠ LF :=
    fun x hx => hcr x (List.mem_append_left _ hx)
  have hlast : last ≠ CR ∧ last ≠ LF := hcr last (by simp)
  rw [List.append_assoc, feed_seek junk _ hjunk, List.cons_append, feed_cons,
    onByte_seek_digit d hd]
  simp only []
  have key : ∀ (cs : List Nat) (response : List Nat), (∀ x ∈ cs, x ≠ CR ∧ x ≠ LF) →
      response.length + cs.length = 126 →
      feed true response (cs ++ [last] ++ more) = .overflow := by
    intro cs
    induction cs with
    | nil =>
      intro response _ hl
      simp only [List.length_nil, Nat.add_zero] at hl
      rw [List.nil_append, List.singleton_append, feed_cons,
        onByte_overflow response last hlast.1 hlast.2 hl]
    | cons c cs ih =>
      intro response hc hl
      simp only [List.length_cons] at hl
      have hc1 := hc c (List.mem_cons_self c cs)
      rw [List.cons_append, List.cons_append, feed_cons,
        onByte_store response c hc1.1 hc1.2 (by omega)]
      simp only []
      exact ih (response ++ [c]) (fun x hx => hc x (List.mem_cons_of_mem c hx))
        (by simp only [List.length_append, List.length_singleton]; omega)
  exact key init [d] hinit (by simp only [List.length_singleton]; omega)

/-! ## Runs of poll -/

theorem flushInput_pending (pending : List Nat) (rest : List (Option Nat)) :
    flushInput (pending.map some ++ none :: rest) =
      .ok (rest, pending.map Ev.rd ++ [Ev.avail0]) := by
  induction pending with
  | nil => rfl
  | cons b bs ih =>
    rw [List.map_cons, List.cons_append, flushInput, ih]
    rfl

/-- A run of `poll()` whose flush loop reads `pending` and whose wait loop ends
with the timeout. -/
theorem poll_of_timeout (c : Client) (pending : List Nat) (rest : List (Option Nat))
    (start : Nat) (clock : List Nat) (tr : List Ev)
    (h : waitLoop c._timeout start clock rest false [] = .ok (.timeout, tr)) :
    poll c { chan := pending.map some ++ none :: rest, clock := start :: clock } =
      .ok { ret := false, client := setError (clearError c) "Timeout waiting for response",
            trace := pending.map Ev.rd ++ [Ev.avail0] ++ [Ev.wr 77, Ev.wr c._address, Ev.wr 33] ++
              Ev.clk start :: tr } := by
  have h1 : waitLoop (clearError c)._timeout start clock rest false [] = .ok (.timeout, tr) := h
  simp only [poll, flushInput_pending, h1]
  rfl

/-- A run of `poll()` whose flush loop reads `pending` and whose wait loop ends
in the overflow branch. -/
theorem poll_of_overflow (c : Client) (pending : List Nat) (rest : List (Option Nat))
    (start : Nat) (clock : List Nat) (tr : List Ev)
    (h : waitLoop c._timeout start clock rest false [] = .ok (.overflow, tr)) :
    poll c { chan := pending.map some ++ none :: rest, clock := start :: clock } =
      .ok { ret := false, client := setError (clearError c) "Response buffer overflow",
            trace := pending.map Ev.rd ++ [Ev.avail0] ++ [Ev.wr 77, Ev.wr c._address, Ev.wr 33] ++
              Ev.clk start :: tr } := by
  have h1 : waitLoop (clearError c)._timeout start clock rest false [] = .ok (.overflow, tr) := h
  simp only [poll, flushInput_pending, h1]
  rfl

/-- A run of `poll()` whose flush loop reads `pending` and whose wait loop ends
with a frame. -/
theorem poll_of_frame (c : Client) (pending : List Nat) (rest : List (Option Nat))
    (start : Nat) (clock : List Nat) (response : List Nat) (tr : List Ev)
    (h : waitLoop c._timeout start clock rest false [] = .ok (.frame response, tr)) :
    poll c { chan := pending.map some ++ none :: rest, clock := start :: clock } =
      .ok { ret := (parseResponse (clearError c) response).1,
            client := (parseResponse (clearError c) response).2,
            trace := pending.map Ev.rd ++ [Ev.avail0] ++ [Ev.wr 77, Ev.wr c._address, Ev.wr 33] ++
              Ev.clk start :: tr } := by
  have h1 : waitLoop (clearError c)._timeout start clock rest false [] =
      .ok (.frame response, tr) := h
  simp only [poll, flushInput_pending, h1]
  rfl

/-! ## Traces -/

theorem andThen_eq_ok {α : Type} (evs : List Ev) (x : Except Stop (α × List Ev)) (a : α)
    (tr : List Ev) (h : andThen evs x = .ok (a, tr)) :
    ∃ tr1, x = .ok (a, tr1) ∧ tr = evs ++ tr1 := by
  cases x with
  | error e => cases h
  | ok p =>
    obtain ⟨a1, tr1⟩ := p
    simp only [andThen] at h
    injection h with h
    injection h with h1 h2
    exact ⟨tr1, by rw [h1], h2.symm⟩

/-- The flush loop reads the bytes the stream holds until `available()` returns
zero, and makes no other call. -/
theorem flushInput_ok (chan : List (Option Nat)) : ∀ (rest : List (Option Nat)) (tr : List Ev),
    flushInput chan = .ok (rest, tr) →
    ∃ pending : List Nat, chan = pending.map some ++ none :: rest ∧
      tr = pending.map Ev.rd ++ [Ev.avail0] := by
  induction chan with
  | nil => intro rest tr h; cases h
  | cons i is ih =>
    intro rest tr h
    cases i with
    | none =>
      simp only [flushInput] at h
      injection h with h
      injection h with h1 h2
      exact ⟨[], by rw [h1]; rfl, by rw [← h2]; rfl⟩
    | some b =>
      simp only [flushInput] at h
      obtain ⟨tr1, h1, h2⟩ := andThen_eq_ok _ _ _ _ h
      obtain ⟨pending, h3, h4⟩ := ih rest tr1 h1
      exact ⟨b :: pending, by rw [h3]; rfl, by rw [h2, h4]; rfl⟩

/-- The wait loop writes nothing. -/
theorem waitLoop_no_write (timeout start : Nat) (clock : List Nat) :
    ∀ (chan : List (Option Nat)) (foundData : Bool) (response : List Nat) (rx : Rx)
      (tr : List Ev),
    waitLoop timeout start clock chan foundData response = .ok (rx, tr) →
    ∀ e ∈ tr, ∀ b, e ≠ Ev.wr b := by
  induction clock with
  | nil => intro chan foundData response rx tr h; cases h
  | cons now clock ih =>
    intro chan foundData response rx tr h
    by_cases ht : usub now start < timeout
    · cases chan with
      | nil =>
        simp only [waitLoop, if_pos ht] at h
        cases h
      | cons i is =>
        cases i with
        | none =>
          rw [waitLoop_none _ _ _ _ _ _ _ ht] at h
          obtain ⟨tr1, h1, h2⟩ := andThen_eq_ok _ _ _ _ h
          have := ih is foundData response rx tr1 h1
          intro e he b
          rw [h2] at he
          simp only [List.cons_append, List.nil_append, List.mem_cons] at he
          rcases he with he | he | he
          · rw [he]; exact fun hh => by cases hh
          · rw [he]; exact fun hh => by cases hh
          · exact this e he b
        | some b0 =>
          rw [waitLoop_some _ _ _ _ _ _ _ _ ht] at h
          cases hstep : onByte foundData response (toChar b0) with
          | next f1 r1 =>
            rw [hstep] at h
            simp only [] at h
            obtain ⟨tr1, h1, h2⟩ := andThen_eq_ok _ _ _ _ h
            have := ih is f1 r1 rx tr1 h1
            intro e he b
            rw [h2] at he
            simp only [List.cons_append, List.nil_append, List.mem_cons] at he
            rcases he with he | he | he
            · rw [he]; exact fun hh => by cases hh
            · rw [he]; exact fun hh => by cases hh
            · exact this e he b
          | frame r1 =>
            rw [hstep] at h
            simp only [] at h
            injection h with h
            injection h with _ h2
            intro e he b
            rw [← h2] at he
            simp only [List.mem_cons, List.mem_singleton] at he
            rcases he with he | he | he
            · rw [he]; exact fun hh => by cases hh
            · rw [he]; exact fun hh => by cases hh
            · cases he
          | overflow =>
            rw [hstep] at h
            simp only [] at h
            injection h with h
            injection h with _ h2
            intro e he b
            rw [← h2] at he
            simp only [List.mem_cons, List.mem_singleton] at he
            rcases he with he | he | he
            · rw [he]; exact fun hh => by cases hh
            · rw [he]; exact fun hh => by cases hh
            · cases he
          | fault =>
            rw [hstep] at h
            cases h
    · rw [waitLoop_late _ _ _ _ _ _ _ ht] at h
      injection h with h
      injection h with _ h2
      intro e he b
      rw [← h2] at he
      simp only [List.mem_singleton] at he
      rw [he]
      exact fun hh => by cases hh

/-- The calls of every run of `poll()`: the flush loop, the three writes, the
reading of the start time, the wait loop. -/
theorem poll_trace (c : Client) (w : World) (r : PollResult) (h : poll c w = .ok r) :
    ∃ (pending : List Nat) (rest : List (Option Nat)) (start : Nat) (clock : List Nat)
      (rx : Rx) (tr : List Ev),
      w.chan = pending.map some ++ none :: rest ∧ w.clock = start :: clock ∧
      waitLoop c._timeout start clock rest false [] = .ok (rx, tr) ∧
      r.trace = pending.map Ev.rd ++ [Ev.avail0] ++ [Ev.wr 77, Ev.wr c._address, Ev.wr 33] ++
        Ev.clk start :: tr := by
  unfold poll at h
  simp only [] at h
  split at h
  · cases h
  · rename_i rest flushed hflush
    obtain ⟨pending, hp1, hp2⟩ := flushInput_ok _ _ _ hflush
    split at h
    · cases h
    · rename_i start clock hclock
      split at h
      · cases h
      · rename_i response tr hw
        injection h with h
        subst h
        exact ⟨pending, rest, start, clock, _, tr, hp1, hclock, hw, by rw [hp2]; rfl⟩
      · rename_i tr hw
        injection h with h
        subst h
        exact ⟨pending, rest, start, clock, _, tr, hp1, hclock, hw, by rw [hp2]; rfl⟩
      · rename_i tr hw
        injection h with h
        subst h
        exact ⟨pending, rest, start, clock, _, tr, hp1, hclock, hw, by rw [hp2]; rfl⟩

/-! ## The claims -/

set_option maxRecDepth 20000

/-- C1: whenever `poll()` returns, it returns true exactly when the stored error
is empty afterwards, and when it returns false the stored error is one of the
three messages; nothing of the error stored before the call survives. -/
theorem poll_true_iff_no_error (c : Client) (w : World) (r : PollResult)
    (h : poll c w = .ok r) :
    (r.ret = true ↔ getLastError r.client = "") ∧
    (r.ret = false →
      getLastError r.client = "Timeout waiting for response" ∨
      getLastError r.client = "Response buffer overflow" ∨
      getLastError r.client = "Incomplete data received") := by
  unfold getLastError
  rcases poll_cases c w r h with ⟨response, h1, h2⟩ | ⟨h1, h2⟩ | ⟨h1, h2⟩
  · rcases parseResponse_error (clearError c) response with ⟨p1, p2⟩ | ⟨p1, p2⟩
    · rw [h1, h2, p1, p2]
      simp [clearError]
    · rw [h1, h2, p1, p2]
      simp
  · rw [h1, h2, setError_overflow]
    simp
  · rw [h1, h2, setError_timeout]
    simp

theorem poll_true_iff_no_error_witness :
    poll (setError (construct 48) "Timeout waiting for response") sixTokenWorld =
      .ok sixTokenRun ∧
    ((sixTokenRun.ret = true ↔ getLastError sixTokenRun.client = "") ∧
     (sixTokenRun.ret = false →
       getLastError sixTokenRun.client = "Timeout waiting for response" ∨
       getLastError sixTokenRun.client = "Response buffer overflow" ∨
       getLastError sixTokenRun.client = "Incomplete data received")) :=
  ⟨rfl, poll_true_iff_no_error (setError (construct 48) "Timeout waiting for response")
    sixTokenWorld sixTokenRun rfl⟩

/-- C2: when the text after the optional `32400!` prefix consists of at least
six comma-separated tokens, each a non-empty string of decimal digits of value
at most 65535, `parseResponse` returns true, sets `_dataValid`, and stores the
values of the first six tokens in order; the result does not depend on the
tokens after the sixth. -/
theorem parseResponse_six_digit_tokens (c : Client) (prefixed : Bool) (text : List Nat)
    (t0 t1 t2 t3 t4 t5 : List Nat) (more : List (List Nat))
    (htok : commaTokens text = t0 :: t1 :: t2 :: t3 :: t4 :: t5 :: more)
    (hdig : ∀ t ∈ commaTokens text,
      t ≠ [] ∧ (∀ d ∈ t, isdigit d = true) ∧ decimalValue t ≤ 65535) :
    parseResponse c ((if prefixed then RESPONSE_PREFIX else []) ++ text) =
      (true,
        { c with
          _windSpeed := decimalValue t0, _windDirection := decimalValue t1,
          _vin1 := decimalValue t2, _vin2 := decimalValue t3,
          _vin3 := decimalValue t4, _vin4 := decimalValue t5,
          _dataValid := true }) := by
  have hchar : ∀ x ∈ text, x = COMMA ∨ isdigit x = true := by
    intro x hx
    rcases mem_commaTokens text x hx with h | ⟨t, ht, hxt⟩
    · exact Or.inl h
    · exact Or.inr ((hdig t ht).2.1 x hxt)
  have hnz : ∀ x ∈ text, x ≠ 0 := by
    intro x hx
    rcases hchar x hx with h | h
    · rw [h]; decide
    · have := isdigit_bounds x h
      omega
  have hbang : (33 : Nat) ∉ text := by
    intro hx
    rcases hchar 33 hx with h | h
    · exact absurd h (by decide)
    · exact absurd h (by decide)
  have hinfix : ¬ RESPONSE_PREFIX <:+: text := by
    intro hi
    exact hbang (hi.subset (by simp [RESPONSE_PREFIX]))
  have hstart : dataStart (cstr ((if prefixed then RESPONSE_PREFIX else []) ++ text)) = text := by
    cases prefixed with
    | true =>
      simp only [if_true]
      rw [cstr_prefixed, cstr_eq_self text hnz, dataStart_prefixed]
    | false =>
      simp only [Bool.false_eq_true, if_false, List.nil_append]
      rw [cstr_eq_self text hnz, dataStart_plain text hinfix]
  have hfields : fields text = t0 :: t1 :: t2 :: t3 :: t4 :: t5 :: more := by
    rw [fields_eq_commaTokens text (fun t ht => (hdig t ht).1), htok]
  have hval : ∀ t ∈ commaTokens text, toUInt16 (atoi t) = decimalValue t := by
    intro t ht
    rw [atoi_digits t (hdig t ht).2.1, toUInt16_natCast _ (hdig t ht).2.2]
  rw [htok] at hval
  rw [parseResponse_fields, hstart, hfields]
  simp only [List.length_cons, List.take_succ_cons, List.take_zero, List.map_cons, List.map_nil]
  rw [if_neg (by omega)]
  rw [hval t0 (by simp), hval t1 (by simp), hval t2 (by simp), hval t3 (by simp),
    hval t4 (by simp), hval t5 (by simp)]
  simp [assignFrom, assignField]

theorem parseResponse_six_digit_tokens_witness :
    (commaTokens (bytes "0123,1805,4000,0500,2500,3000,77") =
      [bytes "0123", bytes "1805", bytes "4000", bytes "0500", bytes "2500", bytes "3000",
        bytes "77"] ∧
     ∀ t ∈ commaTokens (bytes "0123,1805,4000,0500,2500,3000,77"),
      t ≠ [] ∧ (∀ d ∈ t, isdigit d = true) ∧ decimalValue t ≤ 65535) ∧
    parseResponse (construct 48)
        ((if true then RESPONSE_PREFIX else []) ++ bytes "0123,1805,4000,0500,2500,3000,77") =
      (true,
        { construct 48 with
          _windSpeed := decimalValue (bytes "0123"), _windDirection := decimalValue (bytes "1805"),
          _vin1 := decimalValue (bytes "4000"), _vin2 := decimalValue (bytes "0500"),
          _vin3 := decimalValue (bytes "2500"), _vin4 := decimalValue (bytes "3000"),
          _dataValid := true }) :=
  ⟨⟨by decide, by decide⟩,
    parseResponse_six_digit_tokens (construct 48) true (bytes "0123,1805,4000,0500,2500,3000,77")
      (bytes "0123") (bytes "1805") (bytes "4000") (bytes "0500") (bytes "2500") (bytes "3000")
      [bytes "77"] (by decide) (by decide)⟩

/-- C3: when the text after the optional `32400!` prefix has five or fewer
comma-separated tokens, `parseResponse` returns false, stores the error
"Incomplete data received" and clears `_dataValid`.  The text after the
optional prefix is the response itself, or what follows a leading `32400!`,
or the text the code starts to tokenise at. -/
theorem parseResponse_few_tokens (c : Client) (response text : List Nat)
    (htext : response = text ∨ response = RESPONSE_PREFIX ++ text ∨
      text = dataStart (cstr response))
    (hfew : (commaTokens text).length ≤ 5) :
    (parseResponse c response).1 = false ∧
    getLastError (parseResponse c response).2 = "Incomplete data received" ∧
    (parseResponse c response).2._dataValid = false := by
  have hlen : (fields (dataStart (cstr response))).length < 6 := by
    rcases htext with h | h | h
    · have := length_fields_within _ _ (dataStart_cstr_within response)
      rw [h] at this ⊢
      omega
    · have h1 : dataStart (cstr response) <:+: text := by
        rw [h, cstr_prefixed, dataStart_prefixed]
        exact (List.takeWhile_prefix _).isInfix
      have := length_fields_within _ _ h1
      omega
    · have := length_fields_le text
      rw [← h]
      omega
  rw [parseResponse_fields, if_pos hlen]
  exact ⟨rfl, rfl, rfl⟩

theorem parseResponse_few_tokens_witness :
    ((bytes "32400!1,2,3,4,5" = bytes "1,2,3,4,5" ∨
      bytes "32400!1,2,3,4,5" = RESPONSE_PREFIX ++ bytes "1,2,3,4,5" ∨
      bytes "1,2,3,4,5" = dataStart (cstr (bytes "32400!1,2,3,4,5"))) ∧
     (commaTokens (bytes "1,2,3,4,5")).length ≤ 5) ∧
    ((parseResponse (construct 48) (bytes "32400!1,2,3,4,5")).1 = false ∧
     getLastError (parseResponse (construct 48) (bytes "32400!1,2,3,4,5")).2 =
       "Incomplete data received" ∧
     (parseResponse (construct 48) (bytes "32400!1,2,3,4,5")).2._dataValid = false) :=
  ⟨⟨by decide, by decide⟩,
    parseResponse_few_tokens (construct 48) (bytes "32400!1,2,3,4,5") (bytes "1,2,3,4,5")
      (by decide) (by decide)⟩

/-- C4: for every text that does not contain `32400!` (six-token texts
included) and every starting state, `parseResponse` gives the same result, the
returned boolean and the whole state with its six measurement fields, on
`32400!` followed by the text and on the text alone. -/
theorem parseResponse_prefix_optional (c : Client) (text : List Nat)
    (h : ¬ RESPONSE_PREFIX <:+: text) :
    parseResponse c (RESPONSE_PREFIX ++ text) = parseResponse c text := by
  have h1 : ¬ RESPONSE_PREFIX <:+: cstr text := by
    intro hi
    exact h (hi.trans (List.takeWhile_prefix _).isInfix)
  unfold parseResponse
  rw [cstr_prefixed, dataStart_prefixed, dataStart_plain (cstr text) h1]

theorem parseResponse_prefix_optional_witness :
    (¬ RESPONSE_PREFIX <:+: bytes "0123,1805,4000,0500,2500,3000") ∧
    parseResponse (construct 48) (RESPONSE_PREFIX ++ bytes "0123,1805,4000,0500,2500,3000") =
      parseResponse (construct 48) (bytes "0123,1805,4000,0500,2500,3000") :=
  ⟨by decide,
    parseResponse_prefix_optional (construct 48) (bytes "0123,1805,4000,0500,2500,3000")
      (by decide)⟩

/-- C5, as stated, fails: the frame `7` makes `poll()` return false with
`_windSpeed` overwritten (0 before the call, 7 after it). -/
theorem poll_failure_overwrites_windSpeed :
    (poll (construct 48) { chan := [none, some 55, some LF], clock := [0, 1, 2, 3] }).map
        (fun r => (r.ret, getLastError r.client, r.client._windSpeed)) =
      .ok (false, "Incomplete data received", 7) ∧
    (construct 48)._windSpeed = 0 :=
  ⟨rfl, rfl⟩

/-- C5, amended: a `poll()` that returns false with the timeout or the overflow
error leaves all six measurement fields as they were, and every `poll()` that
returns false leaves `_vin4` as it was. -/
theorem poll_failure_fields (c : Client) (w : World) (r : PollResult)
    (h : poll c w = .ok r) (hret : r.ret = false) :
    (getLastError r.client ≠ "Incomplete data received" →
      r.client._windSpeed = c._windSpeed ∧ r.client._windDirection = c._windDirection ∧
      r.client._vin1 = c._vin1 ∧ r.client._vin2 = c._vin2 ∧
      r.client._vin3 = c._vin3 ∧ r.client._vin4 = c._vin4) ∧
    r.client._vin4 = c._vin4 := by
  rcases poll_cases c w r h with ⟨response, h1, h2⟩ | ⟨_, h2⟩ | ⟨_, h2⟩
  · rw [hret] at h1
    rcases parseResponse_error (clearError c) response with ⟨p1, _⟩ | ⟨_, p2⟩
    · rw [p1] at h1
      cases h1
    · refine ⟨fun hne => absurd ?_ hne, ?_⟩
      · rw [h2]
        exact p2
      · rw [h2, parseResponse_false_vin4 _ _ h1.symm]
        rfl
  · rw [h2]
    exact ⟨fun _ => ⟨rfl, rfl, rfl, rfl, rfl, rfl⟩, rfl⟩
  · rw [h2]
    exact ⟨fun _ => ⟨rfl, rfl, rfl, rfl, rfl, rfl⟩, rfl⟩

theorem poll_failure_fields_witness :
    (poll sixTokenRun.client silentWorld = .ok silentRun ∧ silentRun.ret = false) ∧
    ((getLastError silentRun.client ≠ "Incomplete data received" →
      silentRun.client._windSpeed = sixTokenRun.client._windSpeed ∧
      silentRun.client._windDirection = sixTokenRun.client._windDirection ∧
      silentRun.client._vin1 = sixTokenRun.client._vin1 ∧
      silentRun.client._vin2 = sixTokenRun.client._vin2 ∧
      silentRun.client._vin3 = sixTokenRun.client._vin3 ∧
      silentRun.client._vin4 = sixTokenRun.client._vin4) ∧
     silentRun.client._vin4 = sixTokenRun.client._vin4) :=
  ⟨⟨rfl, rfl⟩, poll_failure_fields sixTokenRun.client silentWorld silentRun rfl rfl⟩

/-- C6: the code at the failing input.  A first `poll()` succeeds and sets
`_dataValid`; the next one times out, returns false, and `_dataValid` is still
true. -/
theorem poll_timeout_keeps_dataValid :
    (poll (construct 48)
        { chan := none :: (bytes "1,2,3,4,5,6").map some ++ [some LF],
          clock := List.range 14 }).map
        (fun r => (r.ret, r.client._dataValid)) = .ok (true, true) ∧
    ((poll (construct 48)
        { chan := none :: (bytes "1,2,3,4,5,6").map some ++ [some LF],
          clock := List.range 14 }).bind
        (fun r => poll r.client { chan := [none], clock := [0, 1000] })).map
        (fun r => (r.ret, getLastError r.client, r.client._dataValid)) =
      .ok (false, "Timeout waiting for response", true) :=
  ⟨rfl, rfl⟩

/-- C7, as stated, fails: 127 digit bytes and no CR or LF, all within the
timeout, make `poll()` return false with the overflow error, not the timeout
error. -/
theorem poll_no_terminator_overflow :
    (∀ b ∈ List.replicate 127 49, toChar b ≠ CR ∧ toChar b ≠ LF) ∧
    (∀ t ∈ List.range 127, usub t 0 < (construct 48)._timeout) ∧
    (poll (construct 48)
        { chan := none :: List.replicate 127 (some 49), clock := 0 :: List.range 127 }).map
        (fun r => (r.ret, getLastError r.client)) = .ok (false, "Response buffer overflow") :=
  ⟨by decide, by decide, rfl⟩

/-- C7, amended: when the wait loop reads the clock values `ts`, all within the
timeout, then `late` with `late - start >= timeout` (unsigned), and the stream
delivers in these iterations no CR, no LF, and fewer than 127 characters from
the first digit on, `poll()` returns false with the error "Timeout waiting for
response"; its last call is the clock reading `late` at which it gives up. -/
theorem poll_timeout_without_terminator (c : Client) (pending : List Nat)
    (items chan : List (Option Nat)) (start : Nat) (ts : List Nat) (late : Nat)
    (clock : List Nat)
    (hlen : ts.length = items.length)
    (hin : ∀ t ∈ ts, usub t start < c._timeout)
    (hlate : c._timeout ≤ usub late start)
    (hcr : ∀ x ∈ delivered items, x ≠ CR ∧ x ≠ LF)
    (hfew : ((delivered items).dropWhile (fun x => !isdigit x)).length < 127) :
    poll c { chan := pending.map some ++ none :: (items ++ chan),
             clock := start :: (ts ++ late :: clock) } =
      .ok { ret := false,
            client := setError (clearError c) "Timeout waiting for response",
            trace := pending.map Ev.rd ++ [Ev.avail0] ++
              [Ev.wr 77, Ev.wr c._address, Ev.wr 33] ++
              Ev.clk start :: (loopEvents ts items ++ [Ev.clk late]) } ∧
    getLastError (setError (clearError c) "Timeout waiting for response") =
      "Timeout waiting for response" := by
  obtain ⟨f, hf⟩ := feed_pending (delivered items) hcr hfew
  have h1 := (waitLoop_feed c._timeout start (late :: clock) chan ts items false [] hlen hin).1
    f _ hf
  rw [waitLoop_late _ _ _ _ _ _ _ (by omega), andThen_ok] at h1
  exact ⟨poll_of_timeout c pending (items ++ chan) start _ _ h1, rfl⟩

theorem poll_timeout_without_terminator_witness :
    ([1, 2].length = [some 49, none].length ∧
     (∀ t ∈ [1, 2], usub t 0 < (construct 48)._timeout) ∧
     (construct 48)._timeout ≤ usub 1000 0 ∧
     (∀ x ∈ delivered [some 49, none], x ≠ CR ∧ x ≠ LF) ∧
     ((delivered [some 49, none]).dropWhile (fun x => !isdigit x)).length < 127) ∧
    (poll (construct 48)
        { chan := [7].map some ++ none :: ([some 49, none] ++ []),
          clock := 0 :: ([1, 2] ++ 1000 :: []) } =
      .ok { ret := false,
            client := setError (clearError (construct 48)) "Timeout waiting for response",
            trace := [7].map Ev.rd ++ [Ev.avail0] ++
              [Ev.wr 77, Ev.wr (construct 48)._address, Ev.wr 33] ++
              Ev.clk 0 :: (loopEvents [1, 2] [some 49, none] ++ [Ev.clk 1000]) } ∧
     getLastError (setError (clearError (construct 48)) "Timeout waiting for response") =
       "Timeout waiting for response") :=
  ⟨⟨by decide, by decide, by decide, by decide, by decide⟩,
    poll_timeout_without_terminator (construct 48) [7] [some 49, none] [] 0 [1, 2] 1000 []
      (by decide) (by decide) (by decide) (by decide) (by decide)⟩

/-- C8, as stated, fails: 129 bytes `A` followed by `1,2,3,4,5,6` and a line
feed, all within the timeout, are more than 128 bytes before the first CR or
LF, and `poll()` returns true. -/
theorem poll_long_noise_succeeds :
    128 < (List.replicate 129 65 ++ bytes "1,2,3,4,5,6").length ∧
    (∀ b ∈ List.replicate 129 65 ++ bytes "1,2,3,4,5,6", toChar b ≠ CR ∧ toChar b ≠ LF) ∧
    (∀ t ∈ List.range 141, usub t 0 < (construct 48)._timeout) ∧
    (poll (construct 48)
        { chan := none :: (List.replicate 129 65 ++ bytes "1,2,3,4,5,6" ++ [LF]).map some,
          clock := 0 :: List.range 141 }).map
        (fun r => (r.ret, getLastError r.client)) = .ok (true, "") :=
  ⟨by decide, by decide, by decide, rfl⟩

/-- C8, amended: when the stream delivers, in iterations of the wait loop whose
clock readings are all within the timeout, bytes without a digit, then a digit,
then 126 more characters none of which is CR or LF (127 characters from the
first digit on), `poll()` returns false with the error "Response buffer
overflow". -/
theorem poll_overflow (c : Client) (pending : List Nat) (items chan : List (Option Nat))
    (start : Nat) (ts clock : List Nat) (junk : List Nat) (d : Nat) (body more : List Nat)
    (hlen : ts.length = items.length)
    (hin : ∀ t ∈ ts, usub t start < c._timeout)
    (hbytes : delivered items = junk ++ d :: body ++ more)
    (hjunk : ∀ x ∈ junk, isdigit x = false) (hd : isdigit d = true)
    (hbody : body.length = 126) (hcr : ∀ x ∈ body, x ≠ CR ∧ x ≠ LF) :
    (poll c { chan := pending.map some ++ none :: (items ++ chan),
              clock := start :: (ts ++ clock) }).map
        (fun r => (r.ret, getLastError r.client, r.client)) =
      .ok (false, "Response buffer overflow",
        setError (clearError c) "Response buffer overflow") := by
  have hf : feed false [] (delivered items) = .overflow := by
    rw [hbytes]
    exact feed_overflow junk d body more hjunk hd hbody hcr
  obtain ⟨tr, htr⟩ :=
    (waitLoop_feed c._timeout start clock chan ts items false [] hlen hin).2.2.1 hf
  rw [poll_of_overflow c pending (items ++ chan) start _ _ htr]
  rfl

theorem poll_overflow_witness :
    ((List.range 128).length = (([65, 49] ++ List.replicate 126 50).map some).length ∧
     (∀ t ∈ List.range 128, usub t 0 < (construct 48)._timeout) ∧
     delivered (([65, 49] ++ List.replicate 126 50).map some) =
       [65] ++ 49 :: List.replicate 126 50 ++ [] ∧
     (∀ x ∈ [65], isdigit x = false) ∧ isdigit 49 = true ∧
     (List.replicate 126 50).length = 126 ∧
     (∀ x ∈ List.replicate 126 50, x ≠ CR ∧ x ≠ LF)) ∧
    (poll (construct 48)
        { chan := [].map some ++ none :: ((([65, 49] ++ List.replicate 126 50).map some) ++ []),
          clock := 0 :: (List.range 128 ++ []) }).map
        (fun r => (r.ret, getLastError r.client, r.client)) =
      .ok (false, "Response buffer overflow",
        setError (clearError (construct 48)) "Response buffer overflow") :=
  ⟨⟨by decide, by decide, by decide, by decide, by decide, by decide, by decide⟩,
    poll_overflow (construct 48) [] (([65, 49] ++ List.replicate 126 50).map some) [] 0
      (List.range 128) [] [65] 49 (List.replicate 126 50) []
      (by decide) (by decide) (by decide) (by decide) (by decide) (by decide) (by decide)⟩

/-- C9: in every run of `poll()`, whatever it returns, the flush loop first
reads the bytes `pending` the stream holds, until `available()` returns zero;
then `M` (77), the address and `!` (33) are written, in this order; and no call
after that is a write, so these three bytes are all that is written and every
response byte is read after them. -/
theorem poll_writes_request (c : Client) (w : World) (r : PollResult)
    (h : poll c w = .ok r) :
    ∃ (pending : List Nat) (rest : List (Option Nat)) (tr : List Ev),
      w.chan = pending.map some ++ none :: rest ∧
      r.trace = pending.map Ev.rd ++ [Ev.avail0] ++
        [Ev.wr 77, Ev.wr c._address, Ev.wr 33] ++ tr ∧
      ∀ e ∈ tr, ∀ b, e ≠ Ev.wr b := by
  obtain ⟨pending, rest, start, clock, rx, tr, h1, _, h3, h4⟩ := poll_trace c w r h
  refine ⟨pending, rest, Ev.clk start :: tr, h1, h4, ?_⟩
  intro e he b
  rcases List.mem_cons.mp he with he | he
  · rw [he]
    exact fun hh => by cases hh
  · exact waitLoop_no_write _ _ _ _ _ _ _ _ h3 e he b

theorem poll_writes_request_witness :
    poll (construct 48) staleWorld = .ok staleRun ∧
    ∃ (pending : List Nat) (rest : List (Option Nat)) (tr : List Ev),
      staleWorld.chan = pending.map some ++ none :: rest ∧
      staleRun.trace = pending.map Ev.rd ++ [Ev.avail0] ++
        [Ev.wr 77, Ev.wr (construct 48)._address, Ev.wr 33] ++ tr ∧
      ∀ e ∈ tr, ∀ b, e ≠ Ev.wr b :=
  ⟨rfl, poll_writes_request (construct 48) staleWorld staleRun rfl⟩

/-- C10: a fresh client with address `0` (48) and the default timeout of
1000 ms, polled while the stream delivers, within the timeout, the bytes of
`32400!0123,1805,4000,0500,2500,3000` and a line feed, returns true, and then
the wind speed is 12.3, the wind direction 180.5, VIN1 raw 4000, VIN1 1000 mV
and the VIN1 temperature +50; `0123` and `0500` are read as 123 and 500. -/
theorem poll_example (pending : List Nat) (items chan : List (Option Nat)) (start : Nat)
    (ts clock : List Nat)
    (hlen : ts.length = items.length)
    (hin : ∀ t ∈ ts, usub t start < 1000)
    (hbytes : delivered items = bytes "32400!0123,1805,4000,0500,2500,3000" ++ [LF]) :
    ∃ r, poll (construct 48)
        { chan := pending.map some ++ none :: (items ++ chan),
          clock := start :: (ts ++ clock) } = .ok r ∧
      r.ret = true ∧
      getWindSpeed r.client = 12.3 ∧ getWindDirection r.client = 180.5 ∧
      getVIN1Raw r.client = 4000 ∧ getVIN1_mV r.client = 1000 ∧
      getTemperatureVIN1 r.client = 50 ∧
      r.client._windSpeed = 123 ∧ r.client._vin2 = 500 := by
  have hf : feed false [] (delivered items) =
      .frame (bytes "32400!0123,1805,4000,0500,2500,3000" ++ [0]) := by
    rw [hbytes]
    rfl
  obtain ⟨tr, htr⟩ :=
    (waitLoop_feed (construct 48)._timeout start clock chan ts items false [] hlen hin).2.1 _ hf
  refine ⟨_, poll_of_frame (construct 48) pending (items ++ chan) start _ _ _ htr, rfl, ?_, ?_,
    rfl, ?_, ?_, rfl, rfl⟩
  · have h : (parseResponse (clearError (construct 48))
        (bytes "32400!0123,1805,4000,0500,2500,3000" ++ [0])).2._windSpeed = 123 := rfl
    simp only [getWindSpeed, h]
    norm_num
  · have h : (parseResponse (clearError (construct 48))
        (bytes "32400!0123,1805,4000,0500,2500,3000" ++ [0])).2._windDirection = 1805 := rfl
    simp only [getWindDirection, h]
    norm_num
  · have h : (parseResponse (clearError (construct 48))
        (bytes "32400!0123,1805,4000,0500,2500,3000" ++ [0])).2._vin1 = 4000 := rfl
    simp only [getVIN1_mV, h]
    norm_num
  · have h : (parseResponse (clearError (construct 48))
        (bytes "32400!0123,1805,4000,0500,2500,3000" ++ [0])).2._vin1 = 4000 := rfl
    simp only [getTemperatureVIN1, convertToTemperature, h]
    norm_num

theorem poll_example_witness :
    ((List.range 36).length =
        ((bytes "32400!0123,1805,4000,0500,2500,3000" ++ [LF]).map some).length ∧
     (∀ t ∈ List.range 36, usub t 0 < 1000) ∧
     delivered ((bytes "32400!0123,1805,4000,0500,2500,3000" ++ [LF]).map some) =
       bytes "32400!0123,1805,4000,0500,2500,3000" ++ [LF]) ∧
    ∃ r, poll (construct 48)
        { chan := [].map some ++
            none :: ((bytes "32400!0123,1805,4000,0500,2500,3000" ++ [LF]).map some ++ []),
          clock := 0 :: (List.range 36 ++ []) } = .ok r ∧
      r.ret = true ∧
      getWindSpeed r.client = 12.3 ∧ getWindDirection r.client = 180.5 ∧
      getVIN1Raw r.client = 4000 ∧ getVIN1_mV r.client = 1000 ∧
      getTemperatureVIN1 r.client = 50 ∧
      r.client._windSpeed = 123 ∧ r.client._vin2 = 500 :=
  ⟨⟨by decide, by decide, by decide⟩,
    poll_example [] ((bytes "32400!0123,1805,4000,0500,2500,3000" ++ [LF]).map some) [] 0
      (List.range 36) [] (by decide) (by decide) (by decide)⟩

/-! ## Fields by position -/

theorem fieldAt_assignField (c : Client) (k v i : Nat) (hk : k < 6) :
    fieldAt (assignField c k v) i = if i = k then v else fieldAt c i := by
  have h6 : k = 0 ∨ k = 1 ∨ k = 2 ∨ k = 3 ∨ k = 4 ∨ k = 5 := by omega
  rcases h6 with h | h | h | h | h | h <;> subst h <;>
    rcases i with _ | _ | _ | _ | _ | _ | i <;> simp [assignField, fieldAt]

/-- The fields after storing the values `vs` from position `k` on. -/
theorem fieldAt_assignFrom (vs : List Nat) : ∀ (c : Client) (k i : Nat), k + vs.length ≤ 6 →
    fieldAt (assignFrom c k vs) i =
      if i < k then fieldAt c i else (vs[i - k]?).getD (fieldAt c i) := by
  induction vs with
  | nil => intro c k i _; simp [assignFrom]
  | cons v vs ih =>
    intro c k i h
    simp only [List.length_cons] at h
    rw [assignFrom, ih _ _ _ (by omega), fieldAt_assignField c k v i (by omega)]
    by_cases h1 : i < k
    · have h2 : i < k + 1 := by omega
      have h3 : i ≠ k := by omega
      simp [h1, h2, h3]
    · by_cases h2 : i = k
      · subst h2
        simp
      · have h3 : ¬ i < k + 1 := by omega
        have h4 : i - k = (i - (k + 1)) + 1 := by omega
        simp only [h1, h2, h3, if_false]
        rw [h4, List.getElem?_cons_succ]

theorem fieldAt_setError (c : Client) (e : String) (i : Nat) :
    fieldAt (setError c e) i = fieldAt c i := by
  unfold fieldAt
  split <;> rfl

theorem fieldAt_dataValid (c : Client) (b : Bool) (i : Nat) :
    fieldAt { c with _dataValid := b } i = fieldAt c i := by
  unfold fieldAt
  split <;> rfl

/-- The measurement fields after `parseResponse`: the values of the leading
non-empty tokens, at most six, in their positions; the others unchanged. -/
theorem parseResponse_fieldAt (c : Client) (response : List Nat) (i : Nat) :
    fieldAt (parseResponse c response).2 i =
      ((((fields (dataStart (cstr response))).take 6).map
        (fun t => toUInt16 (atoi t)))[i]?).getD (fieldAt c i) := by
  rw [parseResponse_fields]
  split
  · rename_i hlen
    show fieldAt { setError _ _ with _dataValid := false } i = _
    rw [fieldAt_dataValid, fieldAt_setError, fieldAt_assignFrom _ _ _ _ (by simp; omega)]
    rw [List.take_of_length_le (by omega)]
    simp
  · rename_i hlen
    show fieldAt { assignFrom _ _ _ with _dataValid := true } i = _
    rw [fieldAt_dataValid, fieldAt_assignFrom _ _ _ _ (by simp)]
    simp

/-! ## Permissive conversion -/

theorem atoiDigits_no_digit (s : List Nat)
    (h : (match s with
      | [] => false
      | c :: _ => isdigit c) = false) : atoiDigits 0 s = 0 := by
  cases s with
  | nil => rfl
  | cons c cs =>
    simp only [] at h
    simp [atoiDigits, h]

theorem afterSign_other (c : Nat) (cs : List Nat) (h45 : c ≠ 45) (h43 : c ≠ 43) :
    afterSign (c :: cs) = c :: cs := by
  unfold afterSign
  split
  · rename_i heq
    injection heq with h1 _
    exact absurd h1 h45
  · rename_i heq
    injection heq with h1 _
    exact absurd h1 h43
  · rfl

theorem atoiSigned_other (c : Nat) (cs : List Nat) (h45 : c ≠ 45) (h43 : c ≠ 43) :
    atoiSigned (c :: cs) = ((atoiDigits 0 (c :: cs) : Nat) : Int) := by
  unfold atoiSigned
  split
  · rename_i heq
    injection heq with h1 _
    exact absurd h1 h45
  · rename_i heq
    injection heq with h1 _
    exact absurd h1 h43
  · rfl

/-- `atoi` returns 0 on a token that does not begin with a number. -/
theorem atoi_no_number (t : List Nat) (h : beginsWithNumber t = false) : atoi t = 0 := by
  unfold beginsWithNumber at h
  unfold atoi
  generalize t.dropWhile isspace = s at h
  cases s with
  | nil => rfl
  | cons c cs =>
    by_cases h45 : c = 45
    · subst h45
      have h1 : afterSign (45 :: cs) = cs := rfl
      rw [h1] at h
      have h2 : atoiSigned (45 :: cs) = -((atoiDigits 0 cs : Nat) : Int) := rfl
      rw [h2, atoiDigits_no_digit _ h]
      rfl
    · by_cases h43 : c = 43
      · subst h43
        have h1 : afterSign (43 :: cs) = cs := rfl
        rw [h1] at h
        have h2 : atoiSigned (43 :: cs) = ((atoiDigits 0 cs : Nat) : Int) := rfl
        rw [h2, atoiDigits_no_digit _ h]
        rfl
      · rw [afterSign_other c cs h45 h43] at h
        rw [atoiSigned_other c cs h45 h43, atoiDigits_no_digit _ h]
        rfl

theorem fields_of_commaTokens (text : List Nat) (t0 t1 t2 t3 t4 t5 : List Nat)
    (more : List (List Nat))
    (htok : commaTokens text = t0 :: t1 :: t2 :: t3 :: t4 :: t5 :: more)
    (hne : t0 ≠ [] ∧ t1 ≠ [] ∧ t2 ≠ [] ∧ t3 ≠ [] ∧ t4 ≠ [] ∧ t5 ≠ []) :
    fields text = t0 :: t1 :: t2 :: t3 :: t4 :: t5 :: more.filter (fun t => !t.isEmpty) := by
  obtain ⟨h0, h1, h2, h3, h4, h5⟩ := hne
  have e : ∀ t : List Nat, t ≠ [] → (!t.isEmpty) = true := by
    intro t ht
    cases t with
    | nil => exact absurd rfl ht
    | cons a as => rfl
  unfold fields
  rw [htok]
  simp only [List.filter_cons, e t0 h0, e t1 h1, e t2 h2, e t3 h3, e t4 h4, e t5 h5, if_true]

/-! ## Frames -/

/-- While accumulating, characters other than CR and LF are appended as long as
fewer than 127 bytes are held, and the loop body goes on with what follows. -/
theorem feed_accumulate_append (cs : List Nat) : ∀ (response rest : List Nat),
    (∀ x ∈ cs, x ≠ CR ∧ x ≠ LF) → response.length + cs.length < 127 →
    feed true response (cs ++ rest) = feed true (response ++ cs) rest := by
  induction cs with
  | nil => intro response rest _ _; simp
  | cons c cs ih =>
    intro response rest hcr hlen
    simp only [List.length_cons] at hlen
    have hc := hcr c (List.mem_cons_self c cs)
    rw [List.cons_append, feed_cons, onByte_store response c hc.1 hc.2 (by omega)]
    simp only []
    rw [ih (response ++ [c]) rest (fun x hx => hcr x (List.mem_cons_of_mem c hx))
      (by simp only [List.length_append, List.length_singleton]; omega)]
    simp

/-- Bytes without a digit, a digit, fewer than 126 further characters without CR
or LF, then a CR or LF: the loop body hands over the characters from the digit
up to the terminator, followed by NUL. -/
theorem feed_frame (junk : List Nat) (d : Nat) (body : List Nat) (term : Nat) (more : List Nat)
    (hjunk : ∀ x ∈ junk, isdigit x = false) (hd : isdigit d = true)
    (hbody : ∀ x ∈ body, x ≠ CR ∧ x ≠ LF) (hterm : term = CR ∨ term = LF)
    (hfew : body.length + 1 < 127) :
    feed false [] (junk ++ d :: body ++ term :: more) = .frame (d :: body ++ [0]) := by
  rw [List.append_assoc, feed_seek junk _ hjunk, List.cons_append, feed_cons,
    onByte_seek_digit d hd]
  simp only []
  rw [feed_accumulate_append body [d] (term :: more) hbody
    (by simp only [List.length_singleton]; omega)]
  rw [feed_cons, onByte_terminator _ term hterm
    (by simp only [List.length_append, List.length_singleton]; omega)]
  simp

theorem cstr_append_nul (s rest : List Nat) : cstr (s ++ 0 :: rest) = cstr s := by
  induction s with
  | nil => simp [cstr]
  | cons x xs ih =>
    unfold cstr at ih ⊢
    rw [List.cons_append, List.takeWhile_cons, List.takeWhile_cons, ih]

/-- `parseResponse` reads its argument up to the first NUL. -/
theorem parseResponse_append_nul (c : Client) (s rest : List Nat) :
    parseResponse c (s ++ 0 :: rest) = parseResponse c s := by
  unfold parseResponse
  rw [cstr_append_nul]

/-- A run of `poll()` in which the loop body, over the characters delivered
within the timeout, hands over a frame. -/
theorem poll_frame_run (c : Client) (pending : List Nat) (items chan : List (Option Nat))
    (start : Nat) (ts clock : List Nat) (response : List Nat)
    (hlen : ts.length = items.length)
    (hin : ∀ t ∈ ts, usub t start < c._timeout)
    (hf : feed false [] (delivered items) = .frame response) :
    (poll c { chan := pending.map some ++ none :: (items ++ chan),
              clock := start :: (ts ++ clock) }).map (fun r => (r.ret, r.client)) =
      .ok (parseResponse (clearError c) response) := by
  obtain ⟨tr, htr⟩ :=
    (waitLoop_feed c._timeout start clock chan ts items false [] hlen hin).2.1 _ hf
  rw [poll_of_frame c pending (items ++ chan) start _ _ _ htr]
  rfl

/-! ## Buffer bounds -/

/-- At every test of the wait loop `foundData` false means an empty buffer, and
at most 126 bytes are held; one step keeps this, writes inside the buffer, and
hands over at most 127 bytes. -/
theorem onByte_safe (foundData : Bool) (response : List Nat) (c : Nat)
    (hf : foundData = false → response = []) (hl : response.length ≤ 126) :
    match onByte foundData response c with
    | .next f r => (f = false → r = []) ∧ r.length ≤ 126
    | .frame r => r.length ≤ 127
    | .overflow => True
    | .fault => False := by
  cases foundData with
  | false =>
    have h0 : response = [] := hf rfl
    subst h0
    by_cases hd : isdigit c = true
    · rw [onByte_seek_digit c hd]
      simp
    · have hd1 : isdigit c = false := by simpa using hd
      rw [onByte_seek_skip [] c hd1]
      simp
  | true =>
    by_cases hterm : c = CR ∨ c = LF
    · rw [onByte_terminator response c hterm (by omega)]
      simp only [List.length_append, List.length_singleton]
      omega
    · have hcr : c ≠ CR := fun h => hterm (Or.inl h)
      have hlf : c ≠ LF := fun h => hterm (Or.inr h)
      by_cases h126 : response.length = 126
      · rw [onByte_overflow response c hcr hlf h126]
        trivial
      · rw [onByte_store response c hcr hlf (by omega)]
        simp only [List.length_append, List.length_singleton]
        exact ⟨fun h => Bool.noConfusion h, by omega⟩

theorem feed_safe (cs : List Nat) : ∀ (foundData : Bool) (response : List Nat),
    (foundData = false → response = []) → response.length ≤ 126 →
    match feed foundData response cs with
    | .next f r => (f = false → r = []) ∧ r.length ≤ 126
    | .frame r => r.length ≤ 127
    | .overflow => True
    | .fault => False := by
  induction cs with
  | nil =>
    intro foundData response hf hl
    simp only [feed]
    exact ⟨hf, hl⟩
  | cons c cs ih =>
    intro foundData response hf hl
    have h := onByte_safe foundData response c hf hl
    rw [feed_cons]
    cases hstep : onByte foundData response c with
    | next f r =>
      rw [hstep] at h
      simp only [] at h ⊢
      exact ih f r h.1 h.2
    | frame r =>
      rw [hstep] at h
      simpa using h
    | overflow => trivial
    | fault =>
      rw [hstep] at h
      exact h

theorem andThen_eq_error {α : Type} (evs : List Ev) (x : Except Stop (α × List Ev)) (e : Stop)
    (h : andThen evs x = .error e) : x = .error e := by
  cases x with
  | error e1 => exact h
  | ok p => cases h

/-- The wait loop never writes outside the buffer. -/
theorem waitLoop_safe (timeout start : Nat) (clock : List Nat) :
    ∀ (chan : List (Option Nat)) (foundData : Bool) (response : List Nat),
    (foundData = false → response = []) → response.length ≤ 126 →
    waitLoop timeout start clock chan foundData response ≠ .error .outOfBounds := by
  induction clock with
  | nil =>
    intro chan foundData response _ _ h
    simp only [waitLoop] at h
    cases h
  | cons now clock ih =>
    intro chan foundData response hf hl h
    by_cases ht : usub now start < timeout
    · cases chan with
      | nil =>
        simp only [waitLoop, if_pos ht] at h
        cases h
      | cons i is =>
        cases i with
        | none =>
          rw [waitLoop_none _ _ _ _ _ _ _ ht] at h
          exact ih is foundData response hf hl (andThen_eq_error _ _ _ h)
        | some b =>
          rw [waitLoop_some _ _ _ _ _ _ _ _ ht] at h
          have hs := onByte_safe foundData response (toChar b) hf hl
          cases hstep : onByte foundData response (toChar b) with
          | next f r =>
            rw [hstep] at h hs
            simp only [] at h hs
            exact ih is f r hs.1 hs.2 (andThen_eq_error _ _ _ h)
          | frame r =>
            rw [hstep] at h
            cases h
          | overflow =>
            rw [hstep] at h
            cases h
          | fault =>
            rw [hstep] at hs
            exact hs
    · rw [waitLoop_late _ _ _ _ _ _ _ ht] at h
      cases h

theorem flushInput_error (chan : List (Option Nat)) (e : Stop)
    (h : flushInput chan = .error e) : e = .starved := by
  induction chan with
  | nil =>
    simp only [flushInput] at h
    injection h with h
    exact h.symm
  | cons i is ih =>
    cases i with
    | none =>
      simp only [flushInput] at h
      cases h
    | some b =>
      simp only [flushInput] at h
      exact ih (andThen_eq_error _ _ _ h)

/-- A run of `poll()` never stops at a write outside the buffer. -/
theorem poll_safe (c : Client) (w : World) : poll c w ≠ .error .outOfBounds := by
  intro h
  unfold poll at h
  simp only [] at h
  split at h
  · rename_i e hflush
    injection h with h
    rw [h] at hflush
    have := flushInput_error _ _ hflush
    cases this
  · split at h
    · cases h
    · split at h
      · rename_i e hw
        injection h with h
        rw [h] at hw
        exact waitLoop_safe _ _ _ _ false [] (fun _ => rfl) (by simp) hw
      · cases h
      · cases h
      · cases h

/-! ## Runs that time out -/

theorem onByte_seek_next (response : List Nat) (c : Nat) (f : Bool) (r : List Nat)
    (h : onByte false response c = .next f r) :
    (isdigit c = false ∧ f = false ∧ r = response) ∨
    (isdigit c = true ∧ f = true ∧ r = response ++ [c]) := by
  by_cases hd : isdigit c = true
  · right
    have h51 : (c == 51 || isdigit c) = true := by simp [hd]
    simp only [onByte, Bool.not_false, Bool.true_and, h51, if_true] at h
    split at h
    · injection h with h1 h2
      exact ⟨hd, h1.symm, h2.symm⟩
    · cases h
  · left
    have hd1 : isdigit c = false := by simpa using hd
    rw [onByte_seek_skip response c hd1] at h
    injection h with h1 h2
    exact ⟨hd1, h1.symm, h2.symm⟩

theorem onByte_store_next (response : List Nat) (c : Nat) (f : Bool) (r : List Nat)
    (hl : response.length ≤ 126) (h : onByte true response c = .next f r) :
    f = true ∧ r = response ++ [c] ∧ c ≠ CR ∧ c ≠ LF ∧ r.length ≤ 126 := by
  by_cases hterm : c = CR ∨ c = LF
  · rw [onByte_terminator response c hterm (by omega)] at h
    cases h
  · have hcr : c ≠ CR := fun h => hterm (Or.inl h)
    have hlf : c ≠ LF := fun h => hterm (Or.inr h)
    by_cases h126 : response.length = 126
    · rw [onByte_overflow response c hcr hlf h126] at h
      cases h
    · rw [onByte_store response c hcr hlf (by omega)] at h
      injection h with h1 h2
      refine ⟨h1.symm, h2.symm, hcr, hlf, ?_⟩
      rw [← h2]
      simp only [List.length_append, List.length_singleton]
      omega

/-- When the loop body goes on after accumulating, it has appended every
character, none was CR or LF, and at most 126 bytes are held. -/
theorem feed_store_next (cs : List Nat) : ∀ (response : List Nat) (f : Bool) (r : List Nat),
    response.length ≤ 126 → feed true response cs = .next f r →
    r = response ++ cs ∧ (∀ x ∈ cs, x ≠ CR ∧ x ≠ LF) ∧ r.length ≤ 126 := by
  induction cs with
  | nil =>
    intro response f r hl h
    simp only [feed] at h
    injection h with _ h2
    subst h2
    exact ⟨(List.append_nil _).symm, fun x hx => absurd hx (List.not_mem_nil x), hl⟩
  | cons c cs ih =>
    intro response f r hl h
    rw [feed_cons] at h
    cases hstep : onByte true response c with
    | next f1 r1 =>
      rw [hstep] at h
      simp only [] at h
      obtain ⟨hf1, hr1, hcr, hlf, hl1⟩ := onByte_store_next response c f1 r1 hl hstep
      subst hf1
      obtain ⟨e1, e2, e3⟩ := ih r1 f r hl1 h
      refine ⟨by rw [e1, hr1]; simp, ?_, e3⟩
      intro x hx
      rcases List.mem_cons.mp hx with hx | hx
      · rw [hx]
        exact ⟨hcr, hlf⟩
      · exact e2 x hx
    | frame r1 =>
      rw [hstep] at h
      cases h
    | overflow =>
      rw [hstep] at h
      cases h
    | fault =>
      rw [hstep] at h
      cases h

/-- When the loop body goes on, the buffer holds the characters from the first
digit on; none after that digit was CR or LF, and they are at most 126. -/
theorem feed_seek_next (cs : List Nat) : ∀ (f : Bool) (r : List Nat),
    feed false [] cs = .next f r →
    r = cs.dropWhile (fun x => !isdigit x) ∧ (∀ x ∈ r.tail, x ≠ CR ∧ x ≠ LF) ∧
      r.length ≤ 126 := by
  induction cs with
  | nil =>
    intro f r h
    simp only [feed] at h
    injection h with _ h2
    subst h2
    exact ⟨rfl, fun x hx => absurd hx (List.not_mem_nil x), Nat.zero_le _⟩
  | cons c cs ih =>
    intro f r h
    rw [feed_cons] at h
    cases hstep : onByte false [] c with
    | next f1 r1 =>
      rw [hstep] at h
      simp only [] at h
      rcases onByte_seek_next [] c f1 r1 hstep with ⟨hd, hf1, hr1⟩ | ⟨hd, hf1, hr1⟩
      · subst hf1
        subst hr1
        rw [List.dropWhile_cons, hd]
        simp only [Bool.not_false, if_true]
        exact ih f r h
      · subst hf1
        subst hr1
        rw [List.dropWhile_cons, hd]
        simp only [Bool.not_true, Bool.false_eq_true, if_false]
        obtain ⟨e1, e2, e3⟩ := feed_store_next cs ([] ++ [c]) f r (by simp) h
        refine ⟨by rw [e1]; rfl, ?_, e3⟩
        rw [e1]
        exact e2
    | frame r1 =>
      rw [hstep] at h
      cases h
    | overflow =>
      rw [hstep] at h
      cases h
    | fault =>
      rw [hstep] at h
      cases h

/-- A wait loop that ends with the timeout has run through iterations with
clock readings within the timeout, in which the loop body went on, and then
read a clock value with `late - start >= timeout`. -/
theorem waitLoop_timeout_inv (timeout start : Nat) (clock : List Nat) :
    ∀ (chan : List (Option Nat)) (foundData : Bool) (response : List Nat) (tr : List Ev),
    waitLoop timeout start clock chan foundData response = .ok (.timeout, tr) →
    ∃ (ts : List Nat) (late : Nat) (clock1 : List Nat) (items chan1 : List (Option Nat))
      (f : Bool) (r : List Nat),
      clock = ts ++ late :: clock1 ∧ chan = items ++ chan1 ∧ ts.length = items.length ∧
      (∀ t ∈ ts, usub t start < timeout) ∧ timeout ≤ usub late start ∧
      tr = loopEvents ts items ++ [Ev.clk late] ∧
      feed foundData response (delivered items) = .next f r := by
  induction clock with
  | nil =>
    intro chan foundData response tr h
    simp only [waitLoop] at h
    cases h
  | cons now clock ih =>
    intro chan foundData response tr h
    by_cases ht : usub now start < timeout
    · cases chan with
      | nil =>
        simp only [waitLoop, if_pos ht] at h
        cases h
      | cons i is =>
        cases i with
        | none =>
          rw [waitLoop_none _ _ _ _ _ _ _ ht] at h
          obtain ⟨tr1, h1, h2⟩ := andThen_eq_ok _ _ _ _ h
          obtain ⟨ts, late, clock1, items, chan1, f, r, e1, e2, e3, e4, e5, e6, e7⟩ :=
            ih is foundData response tr1 h1
          refine ⟨now :: ts, late, clock1, none :: items, chan1, f, r, by rw [e1]; rfl,
            by rw [e2]; rfl, by simp [e3], ?_, e5, by rw [h2, e6]; rfl,
            by rw [delivered_none]; exact e7⟩
          intro t hmem
          rcases List.mem_cons.mp hmem with hmem | hmem
          · rw [hmem]
            exact ht
          · exact e4 t hmem
        | some b =>
          rw [waitLoop_some _ _ _ _ _ _ _ _ ht] at h
          cases hstep : onByte foundData response (toChar b) with
          | next f1 r1 =>
            rw [hstep] at h
            simp only [] at h
            obtain ⟨tr1, h1, h2⟩ := andThen_eq_ok _ _ _ _ h
            obtain ⟨ts, late, clock1, items, chan1, f, r, e1, e2, e3, e4, e5, e6, e7⟩ :=
              ih is f1 r1 tr1 h1
            refine ⟨now :: ts, late, clock1, some b :: items, chan1, f, r, by rw [e1]; rfl,
              by rw [e2]; rfl, by simp [e3], ?_, e5, by rw [h2, e6]; rfl, ?_⟩
            · intro t hmem
              rcases List.mem_cons.mp hmem with hmem | hmem
              · rw [hmem]
                exact ht
              · exact e4 t hmem
            · rw [delivered_some, feed_cons, hstep]
              exact e7
          | frame r1 =>
            rw [hstep] at h
            simp only [] at h
            injection h with h
            injection h with h1 _
            cases h1
          | overflow =>
            rw [hstep] at h
            simp only [] at h
            injection h with h
            injection h with h1 _
            cases h1
          | fault =>
            rw [hstep] at h
            cases h
    · rw [waitLoop_late _ _ _ _ _ _ _ ht] at h
      injection h with h
      injection h with _ h2
      exact ⟨[], now, clock, [], chan, foundData, response, rfl, rfl, rfl,
        fun t hmem => absurd hmem (List.not_mem_nil t), Nat.le_of_not_lt ht, h2.symm, rfl⟩

/-- Every run of `poll()`: its calls, how its wait loop ended, and what it
returns for that ending. -/
theorem poll_run (c : Client) (w : World) (r : PollResult) (h : poll c w = .ok r) :
    ∃ (pending : List Nat) (rest : List (Option Nat)) (start : Nat) (clock : List Nat)
      (rx : Rx) (tr : List Ev),
      w.chan = pending.map some ++ none :: rest ∧ w.clock = start :: clock ∧
      waitLoop c._timeout start clock rest false [] = .ok (rx, tr) ∧
      r.trace = pending.map Ev.rd ++ [Ev.avail0] ++ [Ev.wr 77, Ev.wr c._address, Ev.wr 33] ++
        Ev.clk start :: tr ∧
      (r.ret, r.client) =
        (match rx with
          | .frame response => parseResponse (clearError c) response
          | .overflow => (false, setError (clearError c) "Response buffer overflow")
          | .timeout => (false, setError (clearError c) "Timeout waiting for response")) := by
  unfold poll at h
  simp only [] at h
  split at h
  · cases h
  · rename_i rest flushed hflush
    obtain ⟨pending, hp1, hp2⟩ := flushInput_ok _ _ _ hflush
    split at h
    · cases h
    · rename_i start clock hclock
      split at h
      · cases h
      · rename_i response tr hw
        injection h with h
        subst h
        exact ⟨pending, rest, start, clock, _, tr, hp1, hclock, hw, by rw [hp2]; rfl, rfl⟩
      · rename_i tr hw
        injection h with h
        subst h
        exact ⟨pending, rest, start, clock, _, tr, hp1, hclock, hw, by rw [hp2]; rfl, rfl⟩
      · rename_i tr hw
        injection h with h
        subst h
        exact ⟨pending, rest, start, clock, _, tr, hp1, hclock, hw, by rw [hp2]; rfl, rfl⟩

/-! ## The claims on tokens, framing and bounds -/

/-- C11: for every frame (a C string, so without NUL byte) that has, after the
`32400!` prefix, six non-empty comma-separated tokens (and possibly more
tokens), `parseResponse` returns true with `_dataValid` true, and each of the
six tokens that does not begin, after optional white space and sign, with a
decimal digit is stored as 0 in the field of its position. -/
theorem parseResponse_nonnumeric_token (c : Client) (text : List Nat)
    (t0 t1 t2 t3 t4 t5 : List Nat) (more : List (List Nat))
    (htok : commaTokens text = t0 :: t1 :: t2 :: t3 :: t4 :: t5 :: more)
    (hne : t0 ≠ [] ∧ t1 ≠ [] ∧ t2 ≠ [] ∧ t3 ≠ [] ∧ t4 ≠ [] ∧ t5 ≠ [])
    (hnul : ∀ x ∈ text, x ≠ 0) :
    (parseResponse c (RESPONSE_PREFIX ++ text)).1 = true ∧
    (parseResponse c (RESPONSE_PREFIX ++ text)).2._dataValid = true ∧
    ∀ i t, [t0, t1, t2, t3, t4, t5][i]? = some t → beginsWithNumber t = false →
      fieldAt (parseResponse c (RESPONSE_PREFIX ++ text)).2 i = 0 := by
  have hstart : dataStart (cstr (RESPONSE_PREFIX ++ text)) = text := by
    rw [cstr_prefixed, cstr_eq_self text hnul, dataStart_prefixed]
  have hfields := fields_of_commaTokens text t0 t1 t2 t3 t4 t5 more htok hne
  refine ⟨?_, ?_, ?_⟩
  · rw [parseResponse_fields, hstart, hfields, if_neg (by simp)]
  · rw [parseResponse_fields, hstart, hfields, if_neg (by simp)]
  · intro i t hi hnum
    rw [parseResponse_fieldAt, hstart, hfields]
    simp only [List.take_succ_cons, List.take_zero, List.getElem?_map, hi, Option.map_some',
      Option.getD_some]
    rw [atoi_no_number t hnum]
    rfl

theorem parseResponse_nonnumeric_token_witness :
    (commaTokens (bytes "abc,0,0,0,0,0") =
        [bytes "abc", bytes "0", bytes "0", bytes "0", bytes "0", bytes "0"] ∧
     (bytes "abc" ≠ [] ∧ bytes "0" ≠ [] ∧ bytes "0" ≠ [] ∧ bytes "0" ≠ [] ∧ bytes "0" ≠ [] ∧
        bytes "0" ≠ []) ∧
     (∀ x ∈ bytes "abc,0,0,0,0,0", x ≠ 0)) ∧
    ((parseResponse (construct 48) (RESPONSE_PREFIX ++ bytes "abc,0,0,0,0,0")).1 = true ∧
     (parseResponse (construct 48) (RESPONSE_PREFIX ++ bytes "abc,0,0,0,0,0")).2._dataValid =
        true ∧
     ∀ i t, [bytes "abc", bytes "0", bytes "0", bytes "0", bytes "0", bytes "0"][i]? = some t →
      beginsWithNumber t = false →
      fieldAt (parseResponse (construct 48) (RESPONSE_PREFIX ++ bytes "abc,0,0,0,0,0")).2 i =
        0) ∧
    (beginsWithNumber (bytes "abc") = false ∧
     (parseResponse (construct 48) (bytes "32400!abc,0,0,0,0,0")).2._windSpeed = 0) :=
  ⟨⟨by decide, by decide, by decide⟩,
    parseResponse_nonnumeric_token (construct 48) (bytes "abc,0,0,0,0,0")
      (bytes "abc") (bytes "0") (bytes "0") (bytes "0") (bytes "0") (bytes "0") []
      (by decide) (by decide) (by decide),
    ⟨by decide, rfl⟩⟩

/-- C12, as stated, fails: `1,,3,4,5,6` splits at its commas into six tokens,
the second one empty, but `parseResponse` returns false with the error
"Incomplete data received", and `_windDirection` is 3 and `_vin1` is 4: the
empty token takes no position. -/
theorem parseResponse_empty_token_skipped :
    commaTokens (bytes "1,,3,4,5,6") =
      [bytes "1", [], bytes "3", bytes "4", bytes "5", bytes "6"] ∧
    (parseResponse (construct 48) (bytes "1,,3,4,5,6")).1 = false ∧
    getLastError (parseResponse (construct 48) (bytes "1,,3,4,5,6")).2 =
      "Incomplete data received" ∧
    (parseResponse (construct 48) (bytes "1,,3,4,5,6")).2._windDirection = 3 ∧
    (parseResponse (construct 48) (bytes "1,,3,4,5,6")).2._vin1 = 4 :=
  ⟨by decide, rfl, rfl, rfl, rfl⟩

/-- C12, amended: for every frame the text after the optional prefix is split at
its commas, left to right, and only the non-empty tokens count (`fields`): the
empty ones are skipped and take no position.  `parseResponse` returns true
exactly when there are at least six non-empty tokens, sets `_dataValid` to what
it returns, stores "Incomplete data received" when it returns false, and the
field at each position holds the value of the non-empty token of that position
among the first six, or its old value when there is no such token. -/
theorem parseResponse_nonempty_tokens (c : Client) (response : List Nat) (i : Nat) :
    (parseResponse c response).1 = decide (6 ≤ (fields (dataStart (cstr response))).length) ∧
    (parseResponse c response).2._dataValid = (parseResponse c response).1 ∧
    getLastError (parseResponse c response).2 =
      (if (parseResponse c response).1 then getLastError c else "Incomplete data received") ∧
    fieldAt (parseResponse c response).2 i =
      ((((fields (dataStart (cstr response))).take 6).map
        (fun t => toUInt16 (atoi t)))[i]?).getD (fieldAt c i) := by
  refine ⟨?_, ?_, ?_, parseResponse_fieldAt c response i⟩
  · rw [parseResponse_fields]
    split
    · rename_i h
      simp only []
      exact (decide_eq_false (by omega)).symm
    · rename_i h
      simp only []
      exact (decide_eq_true (by omega)).symm
  · rw [parseResponse_fields]
    split <;> rfl
  · rcases parseResponse_error c response with ⟨h1, h2⟩ | ⟨h1, h2⟩
    · rw [h1]
      exact h2
    · rw [h1]
      exact h2

/-- C13: in exact arithmetic `convertToTemperature` maps 0 to -50 and 4000 to
+50, equals `-50 + (r / 4) / 10 = r / 40 - 50` for every raw value `r`, is
strictly increasing, and the two temperature getters are `-50` plus a tenth of
the millivolt getters. -/
theorem convertToTemperature_exact (c : Client) (r s : Nat) :
    convertToTemperature 0 = -50 ∧ convertToTemperature 4000 = 50 ∧
    convertToTemperature r = -50 + ((r : ℚ) / 4) / 10 ∧
    convertToTemperature r = (r : ℚ) / 40 - 50 ∧
    (convertToTemperature r < convertToTemperature s ↔ r < s) ∧
    getTemperatureVIN1 c = -50 + getVIN1_mV c / 10 ∧
    getTemperatureVIN2 c = -50 + getVIN2_mV c / 10 := by
  refine ⟨?_, ?_, rfl, ?_, ?_, rfl, rfl⟩
  · simp only [convertToTemperature]
    norm_num
  · simp only [convertToTemperature]
    norm_num
  · simp only [convertToTemperature]
    ring
  · simp only [convertToTemperature]
    constructor
    · intro h
      have h1 : (r : ℚ) < (s : ℚ) := by linarith
      exact_mod_cast h1
    · intro h
      have h1 : (r : ℚ) < (s : ℚ) := by exact_mod_cast h
      linarith

/-- C14: in exact arithmetic and for each channel on its own, whatever the
other channels hold: when the raw value stored in `_vin1` (resp. `_vin2`) lies
in [0, 4000], `getVIN1_mV` (resp. `getVIN2_mV`) is that raw value over 4, lies
in [0, 1000] and gives the raw value back when multiplied by 4; when the raw
value stored in `_vin3` (resp. `_vin4`) lies in [0, 4000], `getVIN3_mV` (resp.
`getVIN4_mV`) is that raw value times 5/4, lies in [0, 5000] and gives the raw
value back when multiplied by 4/5. -/
theorem getVIN_mV_scaling (c : Client) :
    (c._vin1 ≤ 4000 →
      getVIN1_mV c = (c._vin1 : ℚ) / 4 ∧ getVIN1Raw c = c._vin1 ∧
      0 ≤ getVIN1_mV c ∧ getVIN1_mV c ≤ 1000 ∧ getVIN1_mV c * 4 = (c._vin1 : ℚ)) ∧
    (c._vin2 ≤ 4000 →
      getVIN2_mV c = (c._vin2 : ℚ) / 4 ∧ getVIN2Raw c = c._vin2 ∧
      0 ≤ getVIN2_mV c ∧ getVIN2_mV c ≤ 1000 ∧ getVIN2_mV c * 4 = (c._vin2 : ℚ)) ∧
    (c._vin3 ≤ 4000 →
      getVIN3_mV c = (c._vin3 : ℚ) * 5 / 4 ∧ getVIN3Raw c = c._vin3 ∧
      0 ≤ getVIN3_mV c ∧ getVIN3_mV c ≤ 5000 ∧ getVIN3_mV c * (4 / 5) = (c._vin3 : ℚ)) ∧
    (c._vin4 ≤ 4000 →
      getVIN4_mV c = (c._vin4 : ℚ) * 5 / 4 ∧ getVIN4Raw c = c._vin4 ∧
      0 ≤ getVIN4_mV c ∧ getVIN4_mV c ≤ 5000 ∧ getVIN4_mV c * (4 / 5) = (c._vin4 : ℚ)) := by
  have n1 : (0 : ℚ) ≤ (c._vin1 : ℚ) := Nat.cast_nonneg _
  have n2 : (0 : ℚ) ≤ (c._vin2 : ℚ) := Nat.cast_nonneg _
  have n3 : (0 : ℚ) ≤ (c._vin3 : ℚ) := Nat.cast_nonneg _
  have n4 : (0 : ℚ) ≤ (c._vin4 : ℚ) := Nat.cast_nonneg _
  refine ⟨?_, ?_, ?_, ?_⟩
  · intro h
    have p : (c._vin1 : ℚ) ≤ 4000 := by exact_mod_cast h
    unfold getVIN1_mV getVIN1Raw
    refine ⟨rfl, rfl, ?_, ?_, ?_⟩
    · linarith
    · linarith
    · ring
  · intro h
    have p : (c._vin2 : ℚ) ≤ 4000 := by exact_mod_cast h
    unfold getVIN2_mV getVIN2Raw
    refine ⟨rfl, rfl, ?_, ?_, ?_⟩
    · linarith
    · linarith
    · ring
  · intro h
    have p : (c._vin3 : ℚ) ≤ 4000 := by exact_mod_cast h
    unfold getVIN3_mV getVIN3Raw
    refine ⟨?_, rfl, ?_, ?_, ?_⟩
    · ring
    · linarith
    · linarith
    · ring
  · intro h
    have p : (c._vin4 : ℚ) ≤ 4000 := by exact_mod_cast h
    unfold getVIN4_mV getVIN4Raw
    refine ⟨?_, rfl, ?_, ?_, ?_⟩
    · ring
    · linarith
    · linarith
    · ring

theorem getVIN_mV_scaling_witness :
    (nominalClient._vin1 ≤ 4000 ∧ nominalClient._vin2 ≤ 4000 ∧ nominalClient._vin3 ≤ 4000 ∧
      nominalClient._vin4 ≤ 4000) ∧
    ((getVIN1_mV nominalClient = (nominalClient._vin1 : ℚ) / 4 ∧
      getVIN1Raw nominalClient = nominalClient._vin1 ∧
      0 ≤ getVIN1_mV nominalClient ∧ getVIN1_mV nominalClient ≤ 1000 ∧
      getVIN1_mV nominalClient * 4 = (nominalClient._vin1 : ℚ)) ∧
     (getVIN2_mV nominalClient = (nominalClient._vin2 : ℚ) / 4 ∧
      getVIN2Raw nominalClient = nominalClient._vin2 ∧
      0 ≤ getVIN2_mV nominalClient ∧ getVIN2_mV nominalClient ≤ 1000 ∧
      getVIN2_mV nominalClient * 4 = (nominalClient._vin2 : ℚ)) ∧
     (getVIN3_mV nominalClient = (nominalClient._vin3 : ℚ) * 5 / 4 ∧
      getVIN3Raw nominalClient = nominalClient._vin3 ∧
      0 ≤ getVIN3_mV nominalClient ∧ getVIN3_mV nominalClient ≤ 5000 ∧
      getVIN3_mV nominalClient * (4 / 5) = (nominalClient._vin3 : ℚ)) ∧
     (getVIN4_mV nominalClient = (nominalClient._vin4 : ℚ) * 5 / 4 ∧
      getVIN4Raw nominalClient = nominalClient._vin4 ∧
      0 ≤ getVIN4_mV nominalClient ∧ getVIN4_mV nominalClient ≤ 5000 ∧
      getVIN4_mV nominalClient * (4 / 5) = (nominalClient._vin4 : ℚ))) ∧
    ((mixedClient._vin1 ≤ 4000 ∧ ¬ mixedClient._vin2 ≤ 4000 ∧ ¬ mixedClient._vin3 ≤ 4000 ∧
      mixedClient._vin4 ≤ 4000) ∧
     (getVIN1_mV mixedClient = (mixedClient._vin1 : ℚ) / 4 ∧
      getVIN1Raw mixedClient = mixedClient._vin1 ∧
      0 ≤ getVIN1_mV mixedClient ∧ getVIN1_mV mixedClient ≤ 1000 ∧
      getVIN1_mV mixedClient * 4 = (mixedClient._vin1 : ℚ)) ∧
     (getVIN4_mV mixedClient = (mixedClient._vin4 : ℚ) * 5 / 4 ∧
      getVIN4Raw mixedClient = mixedClient._vin4 ∧
      0 ≤ getVIN4_mV mixedClient ∧ getVIN4_mV mixedClient ≤ 5000 ∧
      getVIN4_mV mixedClient * (4 / 5) = (mixedClient._vin4 : ℚ))) :=
  ⟨⟨by decide, by decide, by decide, by decide⟩,
    ⟨(getVIN_mV_scaling nominalClient).1 (by decide),
      (getVIN_mV_scaling nominalClient).2.1 (by decide),
      (getVIN_mV_scaling nominalClient).2.2.1 (by decide),
      (getVIN_mV_scaling nominalClient).2.2.2 (by decide)⟩,
    ⟨⟨by decide, by decide, by decide, by decide⟩,
      (getVIN_mV_scaling mixedClient).1 (by decide),
      (getVIN_mV_scaling mixedClient).2.2.2 (by decide)⟩⟩

/-- C15: when the stream delivers, within the timeout, bytes without a decimal
digit (CR and LF included), then a digit, then fewer than 126 characters none
of which is CR or LF, then a CR or a LF (so the terminator arrives when fewer
than 127 bytes are accumulated), whatever follows, `poll()` returns what
`parseResponse` returns on the buffer that holds the characters from the first
digit up to the terminator, followed by NUL; that is `parseResponse` on exactly
these characters. -/
theorem poll_framing (c : Client) (pending : List Nat) (items chan : List (Option Nat))
    (start : Nat) (ts clock : List Nat) (junk : List Nat) (d : Nat) (body : List Nat)
    (term : Nat) (more : List Nat)
    (hlen : ts.length = items.length)
    (hin : ∀ t ∈ ts, usub t start < c._timeout)
    (hbytes : delivered items = junk ++ d :: body ++ term :: more)
    (hjunk : ∀ x ∈ junk, isdigit x = false) (hd : isdigit d = true)
    (hbody : ∀ x ∈ body, x ≠ CR ∧ x ≠ LF) (hterm : term = CR ∨ term = LF)
    (hfew : (d :: body).length < 127) :
    (poll c { chan := pending.map some ++ none :: (items ++ chan),
              clock := start :: (ts ++ clock) }).map (fun r => (r.ret, r.client)) =
      .ok (parseResponse (clearError c) (d :: body ++ [0])) ∧
    parseResponse (clearError c) (d :: body ++ [0]) = parseResponse (clearError c) (d :: body) := by
  have hf : feed false [] (delivered items) = .frame (d :: body ++ [0]) := by
    rw [hbytes]
    exact feed_frame junk d body term more hjunk hd hbody hterm
      (by simpa only [List.length_cons] using hfew)
  exact ⟨poll_frame_run c pending items chan start ts clock _ hlen hin hf,
    parseResponse_append_nul (clearError c) (d :: body) []⟩

theorem poll_framing_witness :
    ((List.range 17).length = ((bytes "x\r\n1,2,3,4,5,6\r\n9").map some).length ∧
     (∀ t ∈ List.range 17, usub t 0 < (construct 48)._timeout) ∧
     delivered ((bytes "x\r\n1,2,3,4,5,6\r\n9").map some) =
       bytes "x\r\n" ++ 49 :: bytes ",2,3,4,5,6" ++ CR :: bytes "\n9" ∧
     (∀ x ∈ bytes "x\r\n", isdigit x = false) ∧ isdigit 49 = true ∧
     (∀ x ∈ bytes ",2,3,4,5,6", x ≠ CR ∧ x ≠ LF) ∧ (CR = CR ∨ CR = LF) ∧
     (49 :: bytes ",2,3,4,5,6").length < 127) ∧
    ((poll (construct 48)
        { chan := [].map some ++ none :: ((bytes "x\r\n1,2,3,4,5,6\r\n9").map some ++ []),
          clock := 0 :: (List.range 17 ++ []) }).map (fun r => (r.ret, r.client)) =
      .ok (parseResponse (clearError (construct 48)) (49 :: bytes ",2,3,4,5,6" ++ [0])) ∧
     parseResponse (clearError (construct 48)) (49 :: bytes ",2,3,4,5,6" ++ [0]) =
       parseResponse (clearError (construct 48)) (49 :: bytes ",2,3,4,5,6")) :=
  ⟨⟨by decide, by decide, by decide, by decide, by decide, by decide, by decide, by decide⟩,
    poll_framing (construct 48) [] ((bytes "x\r\n1,2,3,4,5,6\r\n9").map some) [] 0
      (List.range 17) [] (bytes "x\r\n") 49 (bytes ",2,3,4,5,6") CR (bytes "\n9")
      (by decide) (by decide) (by decide) (by decide) (by decide) (by decide) (by decide)
      (by decide)⟩

/-- C16, as stated, fails: a frame of 127 digits followed by a line feed, all
within the timeout, is rejected with the overflow error. -/
theorem poll_frame_127_overflows :
    (List.replicate 127 49).length ≤ 127 ∧
    (∀ t ∈ List.range 128, usub t 0 < (construct 48)._timeout) ∧
    (poll (construct 48)
        { chan := none :: (List.replicate 127 49 ++ [LF]).map some,
          clock := 0 :: List.range 128 }).map
        (fun r => (r.ret, getLastError r.client)) = .ok (false, "Response buffer overflow") :=
  ⟨by decide, by decide, rfl⟩

/-- C16, amended: in the accumulating state, with at most 126 bytes held, a
character other than CR and LF takes the overflow branch exactly when storing
it makes the accumulated frame 127 bytes long, and is appended otherwise; hence
every response whose frame, from the first digit up to the first CR or LF, is
at most 126 bytes long and arrives within the timeout is handed to
`parseResponse`, whose result `poll()` returns. -/
theorem poll_overflow_threshold (c : Client) (pending : List Nat)
    (items chan : List (Option Nat)) (start : Nat) (ts clock : List Nat) (junk : List Nat)
    (d : Nat) (body : List Nat) (term : Nat) (more : List Nat) (held : List Nat) (x : Nat)
    (hheld : held.length ≤ 126) (hx : x ≠ CR ∧ x ≠ LF)
    (hlen : ts.length = items.length)
    (hin : ∀ t ∈ ts, usub t start < c._timeout)
    (hbytes : delivered items = junk ++ d :: body ++ term :: more)
    (hjunk : ∀ x ∈ junk, isdigit x = false) (hd : isdigit d = true)
    (hbody : ∀ x ∈ body, x ≠ CR ∧ x ≠ LF) (hterm : term = CR ∨ term = LF)
    (hfew : (d :: body).length ≤ 126) :
    (onByte true held x = .overflow ↔ held.length + 1 = 127) ∧
    (held.length + 1 < 127 → onByte true held x = .next true (held ++ [x])) ∧
    (poll c { chan := pending.map some ++ none :: (items ++ chan),
              clock := start :: (ts ++ clock) }).map (fun r => (r.ret, r.client)) =
      .ok (parseResponse (clearError c) (d :: body)) := by
  refine ⟨?_, fun h => onByte_store held x hx.1 hx.2 h, ?_⟩
  · constructor
    · intro h
      by_cases h1 : held.length + 1 < 127
      · rw [onByte_store held x hx.1 hx.2 h1] at h
        cases h
      · omega
    · intro h
      exact onByte_overflow held x hx.1 hx.2 (by omega)
  · have hf : feed false [] (delivered items) = .frame (d :: body ++ [0]) := by
      rw [hbytes]
      exact feed_frame junk d body term more hjunk hd hbody hterm
        (by simp only [List.length_cons] at hfew; omega)
    rw [poll_frame_run c pending items chan start ts clock _ hlen hin hf,
      parseResponse_append_nul (clearError c) (d :: body) []]

theorem poll_overflow_threshold_witness :
    ((List.replicate 126 49).length ≤ 126 ∧ (50 ≠ CR ∧ 50 ≠ LF) ∧
     (List.range 13).length = ((bytes "\n1,2,3,4,5,6\r").map some).length ∧
     (∀ t ∈ List.range 13, usub t 0 < (construct 48)._timeout) ∧
     delivered ((bytes "\n1,2,3,4,5,6\r").map some) =
       bytes "\n" ++ 49 :: bytes ",2,3,4,5,6" ++ CR :: [] ∧
     (∀ x ∈ bytes "\n", isdigit x = false) ∧ isdigit 49 = true ∧
     (∀ x ∈ bytes ",2,3,4,5,6", x ≠ CR ∧ x ≠ LF) ∧ (CR = CR ∨ CR = LF) ∧
     (49 :: bytes ",2,3,4,5,6").length ≤ 126) ∧
    ((onByte true (List.replicate 126 49) 50 = .overflow ↔
        (List.replicate 126 49).length + 1 = 127) ∧
     ((List.replicate 126 49).length + 1 < 127 →
        onByte true (List.replicate 126 49) 50 = .next true (List.replicate 126 49 ++ [50])) ∧
     (poll (construct 48)
        { chan := [].map some ++ none :: ((bytes "\n1,2,3,4,5,6\r").map some ++ []),
          clock := 0 :: (List.range 13 ++ []) }).map (fun r => (r.ret, r.client)) =
      .ok (parseResponse (clearError (construct 48)) (49 :: bytes ",2,3,4,5,6"))) :=
  ⟨⟨by decide, by decide, by decide, by decide, by decide, by decide, by decide, by decide,
      by decide, by decide⟩,
    poll_overflow_threshold (construct 48) [] ((bytes "\n1,2,3,4,5,6\r").map some) [] 0
      (List.range 13) [] (bytes "\n") 49 (bytes ",2,3,4,5,6") CR [] (List.replicate 126 49) 50
      (by decide) (by decide) (by decide) (by decide) (by decide) (by decide) (by decide)
      (by decide) (by decide) (by decide)⟩

/-- C17: for every frame that yields exactly `k` tokens with `k < 6` (the
non-empty comma-separated tokens of the text after the optional prefix),
`parseResponse` returns false with `_dataValid` false, the first `k`
measurement fields hold the values of these tokens, and the fields from
position `k` on keep the values they had before the call. -/
theorem parseResponse_partial_overwrite (c : Client) (response : List Nat) (k : Nat)
    (hk : (fields (dataStart (cstr response))).length = k) (hlt : k < 6) :
    (parseResponse c response).1 = false ∧
    (parseResponse c response).2._dataValid = false ∧
    (∀ i t, (fields (dataStart (cstr response)))[i]? = some t →
      fieldAt (parseResponse c response).2 i = toUInt16 (atoi t)) ∧
    (∀ i, k ≤ i → fieldAt (parseResponse c response).2 i = fieldAt c i) := by
  have hlen : (fields (dataStart (cstr response))).length < 6 := by omega
  refine ⟨?_, ?_, ?_, ?_⟩
  · rw [parseResponse_fields, if_pos hlen]
  · rw [parseResponse_fields, if_pos hlen]
  · intro i t hi
    rw [parseResponse_fieldAt, List.take_of_length_le (by omega), List.getElem?_map, hi]
    rfl
  · intro i hi
    rw [parseResponse_fieldAt, List.take_of_length_le (by omega), List.getElem?_map,
      List.getElem?_eq_none (by omega)]
    rfl

theorem parseResponse_partial_overwrite_witness :
    ((fields (dataStart (cstr (bytes "32400!7,8,9")))).length = 3 ∧ 3 < 6) ∧
    ((parseResponse nominalClient (bytes "32400!7,8,9")).1 = false ∧
     (parseResponse nominalClient (bytes "32400!7,8,9")).2._dataValid = false ∧
     (∀ i t, (fields (dataStart (cstr (bytes "32400!7,8,9"))))[i]? = some t →
       fieldAt (parseResponse nominalClient (bytes "32400!7,8,9")).2 i = toUInt16 (atoi t)) ∧
     (∀ i, 3 ≤ i →
       fieldAt (parseResponse nominalClient (bytes "32400!7,8,9")).2 i =
         fieldAt nominalClient i)) ∧
    ((parseResponse nominalClient (bytes "32400!7,8,9")).2._vin1 = 9 ∧
     (parseResponse nominalClient (bytes "32400!7,8,9")).2._vin2 = 1234) :=
  ⟨⟨by decide, by decide⟩,
    parseResponse_partial_overwrite nominalClient (bytes "32400!7,8,9") 3 (by decide)
      (by decide),
    ⟨rfl, rfl⟩⟩

/-- C18: no run of `poll()`, whatever the stream delivers and the clock reads,
stops at a write outside `response[0 .. 127]`; and whatever characters the loop
body has been given, the buffer holds at most 126 bytes when the loop goes on
(`idx <= 126`, so a character is stored at an index up to 126 and `idx` is then
at most 127), at most 127 bytes with the terminator when a frame is handed over
(the terminator is written at `idx - 1 <= 126`), the terminator of the overflow
branch is written at `idx = 127`, and the out-of-bounds branch is not taken. -/
theorem poll_buffer_safe (c : Client) (w : World) (cs : List Nat) :
    poll c w ≠ .error .outOfBounds ∧
    (match feed false [] cs with
      | .next _ r => r.length ≤ 126
      | .frame r => r.length ≤ 127
      | .overflow => True
      | .fault => False) := by
  refine ⟨poll_safe c w, ?_⟩
  have h := feed_safe cs false [] (fun _ => rfl) (by simp)
  cases hf : feed false [] cs with
  | next f r =>
    rw [hf] at h
    exact h.2
  | frame r =>
    rw [hf] at h
    exact h
  | overflow => trivial
  | fault =>
    rw [hf] at h
    exact h

/-- C19: whenever `poll()` reports "Timeout waiting for response", its wait loop
ran through iterations whose clock readings were within the timeout and then
read, at the loop test, a value `late` with `(late - start) mod 2^32 >= timeout`
(the last call of the run); the characters accumulated in these iterations, from
the first digit on, hold no CR or LF after that digit and are fewer than 127.
And after `setTimeout(0)` a `poll()` whose flush loop ends returns false with the
timeout error after two clock readings, without reading any response byte. -/
theorem poll_timeout_sound (c : Client) :
    (∀ w r, poll c w = .ok r → getLastError r.client = "Timeout waiting for response" →
      ∃ (pending : List Nat) (items chan : List (Option Nat)) (start : Nat) (ts : List Nat)
        (late : Nat) (clock : List Nat),
        w.chan = pending.map some ++ none :: (items ++ chan) ∧
        w.clock = start :: (ts ++ late :: clock) ∧
        ts.length = items.length ∧
        (∀ t ∈ ts, usub t start < c._timeout) ∧
        r.trace = pending.map Ev.rd ++ [Ev.avail0] ++
          [Ev.wr 77, Ev.wr c._address, Ev.wr 33] ++
          Ev.clk start :: (loopEvents ts items ++ [Ev.clk late]) ∧
        c._timeout ≤ usub late start ∧
        (∀ x ∈ ((delivered items).dropWhile (fun x => !isdigit x)).tail, x ≠ CR ∧ x ≠ LF) ∧
        ((delivered items).dropWhile (fun x => !isdigit x)).length < 127) ∧
    (∀ (pending : List Nat) (rest : List (Option Nat)) (start now : Nat) (clock : List Nat),
      poll (setTimeout c 0)
          { chan := pending.map some ++ none :: rest, clock := start :: now :: clock } =
        .ok { ret := false,
              client := setError (clearError (setTimeout c 0)) "Timeout waiting for response",
              trace := pending.map Ev.rd ++ [Ev.avail0] ++
                [Ev.wr 77, Ev.wr c._address, Ev.wr 33] ++ [Ev.clk start, Ev.clk now] }) := by
  constructor
  · intro w r h herr
    obtain ⟨pending, rest, start, clock, rx, tr, h1, h2, h3, h4, h5⟩ := poll_run c w r h
    have hclient : r.client = (r.ret, r.client).2 := rfl
    unfold getLastError at herr
    cases rx with
    | frame response =>
      rw [hclient, h5] at herr
      simp only [] at herr
      rcases parseResponse_error (clearError c) response with ⟨_, p2⟩ | ⟨_, p2⟩
      · rw [p2] at herr
        have h0 : (clearError c)._lastError = "" := rfl
        rw [h0] at herr
        exact absurd herr (by decide)
      · rw [p2] at herr
        exact absurd herr (by decide)
    | overflow =>
      rw [hclient, h5] at herr
      simp only [] at herr
      rw [setError_overflow] at herr
      exact absurd herr (by decide)
    | timeout =>
      obtain ⟨ts, late, clock1, items, chan1, f, acc, e1, e2, e3, e4, e5, e6, e7⟩ :=
        waitLoop_timeout_inv _ _ _ _ _ _ _ h3
      obtain ⟨g1, g2, g3⟩ := feed_seek_next _ _ _ e7
      refine ⟨pending, items, chan1, start, ts, late, clock1, by rw [h1, e2], by rw [h2, e1],
        e3, e4, by rw [h4, e6], e5, ?_, ?_⟩
      · rw [← g1]
        exact g2
      · rw [← g1]
        omega
  · intro pending rest start now clock
    have hw : waitLoop (setTimeout c 0)._timeout start (now :: clock) rest false [] =
        .ok (.timeout, [Ev.clk now]) :=
      waitLoop_late _ _ _ _ _ _ _ (by
        show ¬ usub now start < 0 % ULONG_MOD
        simp)
    exact poll_of_timeout (setTimeout c 0) pending rest start _ _ hw

theorem poll_timeout_sound_witness :
    (poll sixTokenRun.client silentWorld = .ok silentRun ∧
      getLastError silentRun.client = "Timeout waiting for response") ∧
    (∃ (pending : List Nat) (items chan : List (Option Nat)) (start : Nat) (ts : List Nat)
        (late : Nat) (clock : List Nat),
        silentWorld.chan = pending.map some ++ none :: (items ++ chan) ∧
        silentWorld.clock = start :: (ts ++ late :: clock) ∧
        ts.length = items.length ∧
        (∀ t ∈ ts, usub t start < sixTokenRun.client._timeout) ∧
        silentRun.trace = pending.map Ev.rd ++ [Ev.avail0] ++
          [Ev.wr 77, Ev.wr sixTokenRun.client._address, Ev.wr 33] ++
          Ev.clk start :: (loopEvents ts items ++ [Ev.clk late]) ∧
        sixTokenRun.client._timeout ≤ usub late start ∧
        (∀ x ∈ ((delivered items).dropWhile (fun x => !isdigit x)).tail, x ≠ CR ∧ x ≠ LF) ∧
        ((delivered items).dropWhile (fun x => !isdigit x)).length < 127) ∧
    poll (setTimeout (construct 48) 0)
        { chan := [120].map some ++ none :: [some 49, some LF], clock := 5 :: 5 :: [] } =
      .ok { ret := false,
            client := setError (clearError (setTimeout (construct 48) 0))
              "Timeout waiting for response",
            trace := [120].map Ev.rd ++ [Ev.avail0] ++
              [Ev.wr 77, Ev.wr (construct 48)._address, Ev.wr 33] ++ [Ev.clk 5, Ev.clk 5] } :=
  ⟨⟨rfl, rfl⟩,
    (poll_timeout_sound sixTokenRun.client).1 silentWorld silentRun rfl rfl,
    (poll_timeout_sound (construct 48)).2 [120] [some 49, some LF] 5 5 []⟩

/-- C20: the value stored in a measurement field is the `atoi` value of the
token of that position (one of the first six non-empty tokens) reduced modulo
`2^16`; there is no range check: what `parseResponse` returns depends only on
the number of tokens.  So `70000` is stored as 4464 and `-1` as 65535. -/
theorem parseResponse_wraps_mod_65536 (c : Client) (response : List Nat) (i : Nat)
    (t : List Nat)
    (h : ((fields (dataStart (cstr response))).take 6)[i]? = some t) :
    ((fieldAt (parseResponse c response).2 i : Nat) : Int) = atoi t % 65536 ∧
    (parseResponse c response).1 = decide (6 ≤ (fields (dataStart (cstr response))).length) ∧
    (atoi (bytes "70000") = 70000 ∧ toUInt16 (atoi (bytes "70000")) = 4464) ∧
    (atoi (bytes "-1") = -1 ∧ toUInt16 (atoi (bytes "-1")) = 65535) := by
  refine ⟨?_, ?_, ⟨by decide, by decide⟩, ⟨by decide, by decide⟩⟩
  · rw [parseResponse_fieldAt, List.getElem?_map, h]
    simp only [Option.map_some', Option.getD_some, toUInt16]
    exact Int.toNat_of_nonneg (Int.emod_nonneg _ (by decide))
  · rw [parseResponse_fields]
    split
    · rename_i h1
      simp only []
      exact (decide_eq_false (by omega)).symm
    · rename_i h1
      simp only []
      exact (decide_eq_true (by omega)).symm

theorem parseResponse_wraps_mod_65536_witness :
    (((fields (dataStart (cstr (bytes "32400!70000,-1,0,0,0,0")))).take 6)[0]? =
      some (bytes "70000")) ∧
    (((fieldAt (parseResponse (construct 48) (bytes "32400!70000,-1,0,0,0,0")).2 0 : Nat) : Int) =
        atoi (bytes "70000") % 65536 ∧
     (parseResponse (construct 48) (bytes "32400!70000,-1,0,0,0,0")).1 =
        decide (6 ≤ (fields (dataStart (cstr (bytes "32400!70000,-1,0,0,0,0")))).length) ∧
     (atoi (bytes "70000") = 70000 ∧ toUInt16 (atoi (bytes "70000")) = 4464) ∧
     (atoi (bytes "-1") = -1 ∧ toUInt16 (atoi (bytes "-1")) = 65535)) ∧
    ((parseResponse (construct 48) (bytes "32400!70000,-1,0,0,0,0")).1 = true ∧
     (parseResponse (construct 48) (bytes "32400!70000,-1,0,0,0,0")).2._windSpeed = 4464 ∧
     (parseResponse (construct 48) (bytes "32400!70000,-1,0,0,0,0")).2._windDirection = 65535 ∧
     getLastError (parseResponse (construct 48) (bytes "32400!70000,-1,0,0,0,0")).2 = "") :=
  ⟨by decide,
    parseResponse_wraps_mod_65536 (construct 48) (bytes "32400!70000,-1,0,0,0,0") 0
      (bytes "70000") (by decide),
    ⟨rfl, rfl, rfl, rfl⟩⟩

end YOUNG_32400
